import Mathlib

/-!
Verification of the multi-source crypto price aggregation engine.

The definitions below are a shallow embedding of the TypeScript sources:
* `src/types.ts` — the data model (`PriceData`, `ExchangeResult`,
  `CryptoPriceResult`);
* `CryptoPriceChecker.getCryptoPrice` — the aggregator (fan-out,
  settle-all, statistics);
* the CEX/DEX adapters (`BinanceExchange`, `OneInchExchange`,
  `UniswapExchange`);
* `TokenAddressService` — the token resolver cascade;
* `CryptoPriceMCPServer` — tool-call validation and result formatting.

JavaScript numbers are modelled as exact rationals (`ℚ`) wherever the
code manipulates finite values; where a code path can produce `NaN`
(a `parseFloat`/`Number` call on a missing or malformed field) we use
the explicit `JsNum` type that carries a `nan` constructor.
-/

namespace CryptoSpec

/-- Embeds the `PriceData` interface of `src/types.ts`.  Optional fields
are `Option`s; `price` is here a finite JavaScript number, modelled as
`ℚ` — sufficient for the price-agnostic claims (counts, ordering, fault
isolation, formatting); the statistics claim uses the `NaN`-aware
`JsPriceData`/`getCryptoPriceFromResultsJs` model below, since an
unguarded `parseFloat` can hand the statistics tail a `NaN` price. -/
structure PriceData where
  exchange : String
  symbol : String
  price : ℚ
  timestamp : ℕ
  volume24h : Option ℚ := none
  change24h : Option ℚ := none
  chainId : Option ℕ := none
  poolAddress : Option String := none
  liquidity : Option String := none
  deriving Repr, DecidableEq

/-- Embeds the `ExchangeResult` interface of `src/types.ts`: the
per-adapter outcome record with a `success` flag, optional `data` and
optional `error` text. -/
structure ExchangeResult where
  exchange : String
  success : Bool
  data : Option PriceData := none
  error : Option String := none
  deriving Repr, DecidableEq

/-- Embeds the `CryptoPriceResult` interface of `src/types.ts` (the
spec's `AggregateResult`). -/
structure CryptoPriceResult where
  symbol : String
  results : List ExchangeResult
  averagePrice : Option ℚ := none
  bestPrice : Option ℚ := none
  worstPrice : Option ℚ := none
  totalExchanges : ℕ
  successfulExchanges : ℕ
  deriving Repr, DecidableEq

/-- An `ExchangeResult` embodies the spec's `Success(PriceQuote)` branch
of `AdapterOutcome` exactly when its `success` flag is set and the
payload is present (`r.success && r.data` in the source's filter). -/
def ExchangeResult.isSuccess (r : ExchangeResult) : Bool :=
  r.success && r.data.isSome

/-- Embeds `results.filter(r => r.success && r.data)` from
`CryptoPriceChecker.getCryptoPrice`. -/
def successfulResults (results : List ExchangeResult) : List ExchangeResult :=
  results.filter (fun r => r.success && r.data.isSome)

/-- Embeds `successfulResults.map(r => r.data!.price)`; on the filtered
list `data` is always present, so `filterMap` extracts exactly the
successful prices. -/
def pricesOf (results : List ExchangeResult) : List ℚ :=
  (successfulResults results).filterMap (fun r => r.data.map PriceData.price)

/-- Embeds the statistics / result-assembly tail of
`CryptoPriceChecker.getCryptoPrice` (the code after all adapter promises
settled) over finite prices: average = sum/length when non-empty,
best = `Math.min`, worst = `Math.max`, plus the two counters.  The
price-valued fields of this variant serve the price-agnostic claims;
`getCryptoPriceFromResultsJs` below is the same tail over `JsNum`
prices, faithful to `NaN` propagation. -/
def getCryptoPriceFromResults (symbol : String) (results : List ExchangeResult) :
    CryptoPriceResult :=
  let prices := pricesOf results
  { symbol := symbol.toUpper
    results := results
    averagePrice := if 0 < prices.length then some (prices.sum / prices.length) else none
    bestPrice := prices.min?
    worstPrice := prices.max?
    totalExchanges := results.length
    successfulExchanges := (successfulResults results).length }

/-- C1: for every `AggregateResult` produced by the aggregator,
`successfulExchanges` equals the number of outcomes that are `Success`,
and `totalExchanges` equals the number of outcomes. -/
theorem aggregate_counts_invariant (symbol : String) (results : List ExchangeResult) :
    (getCryptoPriceFromResults symbol results).successfulExchanges
        = results.countP (fun r => r.isSuccess)
      ∧ (getCryptoPriceFromResults symbol results).totalExchanges = results.length
      ∧ (getCryptoPriceFromResults symbol results).results = results := by
  refine ⟨?_, rfl, rfl⟩
  simp [getCryptoPriceFromResults, successfulResults, ExchangeResult.isSuccess,
    List.countP_eq_length_filter]

lemma mem_successfulResults_data_isSome {results : List ExchangeResult}
    {r : ExchangeResult} (hr : r ∈ successfulResults results) : r.data.isSome := by
  have h := List.of_mem_filter hr
  exact (Bool.and_eq_true ..).mp h |>.2

lemma filterMap_price_length {l : List ExchangeResult} (h : ∀ r ∈ l, r.data.isSome) :
    (l.filterMap (fun r => r.data.map PriceData.price)).length = l.length := by
  induction l with
  | nil => rfl
  | cons x xs ih =>
    have hx := h x (List.mem_cons_self _ _)
    cases hd : x.data with
    | none => simp [hd] at hx
    | some d =>
      simp [List.filterMap_cons, hd, ih (fun r hr => h r (List.mem_cons_of_mem _ hr))]

lemma pricesOf_length (results : List ExchangeResult) :
    (pricesOf results).length = (successfulResults results).length :=
  filterMap_price_length (fun _ hr => mem_successfulResults_data_isSome hr)

instance : Std.Antisymm ((· : ℚ) ≤ ·) where
  antisymm h1 h2 := le_antisymm h1 h2

lemma rat_min?_spec {l : List ℚ} {m : ℚ} (h : l.min? = some m) :
    m ∈ l ∧ ∀ b ∈ l, m ≤ b := by
  have : _ ∧ ∀ b, b ∈ l → m ≤ b :=
    (List.min?_eq_some_iff (fun a : ℚ => le_refl a) (fun a b => min_choice a b)
      (fun a b c => le_min_iff)).mp h
  exact ⟨this.1, fun b hb => this.2 b hb⟩

lemma rat_max?_spec {l : List ℚ} {m : ℚ} (h : l.max? = some m) :
    m ∈ l ∧ ∀ b ∈ l, b ≤ m := by
  have : _ ∧ ∀ b, b ∈ l → b ≤ m :=
    (List.max?_eq_some_iff (fun a : ℚ => le_refl a) (fun a b => max_choice a b)
      (fun a b c => max_le_iff)).mp h
  exact ⟨this.1, fun b hb => this.2 b hb⟩

lemma length_mul_le_sum {l : List ℚ} {m : ℚ} (hm : ∀ b ∈ l, m ≤ b) :
    (l.length : ℚ) * m ≤ l.sum := by
  induction l with
  | nil => simp
  | cons x xs ih =>
    have h1 : (xs.length : ℚ) * m ≤ xs.sum :=
      ih (fun b hb => hm b (List.mem_cons_of_mem _ hb))
    have h2 : m ≤ x := hm x (List.mem_cons_self _ _)
    simp only [List.length_cons, List.sum_cons]
    push_cast
    linarith

lemma sum_le_length_mul {l : List ℚ} {m : ℚ} (hm : ∀ b ∈ l, b ≤ m) :
    l.sum ≤ (l.length : ℚ) * m := by
  induction l with
  | nil => simp
  | cons x xs ih =>
    have h1 : xs.sum ≤ (xs.length : ℚ) * m :=
      ih (fun b hb => hm b (List.mem_cons_of_mem _ hb))
    have h2 : x ≤ m := hm x (List.mem_cons_self _ _)
    simp only [List.length_cons, List.sum_cons]
    push_cast
    linarith

/-- A sample successful outcome used by concrete witnesses. -/
def sampleSuccess : ExchangeResult :=
  { exchange := "Binance"
    success := true
    data := some
      { exchange := "Binance"
        symbol := "BTCUSDT"
        price := 5
        timestamp := 0 } }

/-- A sample failed outcome used by concrete witnesses. -/
def sampleFailure : ExchangeResult :=
  { exchange := "Kraken"
    success := false
    error := some "No data found for symbol" }

/-- The fixed adapter configuration order: the `exchangeNames` array in
`CryptoPriceChecker.getCryptoPrice`. -/
def exchangeNames : List String :=
  ["binance", "okx", "coinbase", "kraken",
   "hyperliquid", "uniswap", "0x", "jupiter",
   "okx-dex", "1inch", "pancakeswap", "curve"]

/-- What one adapter invocation does: either it returns a declared
`ExchangeResult`, or it throws an unhandled exception carrying a
message (the spec's UnexpectedAdapterFault). -/
inductive AdapterBehavior where
  | ret (r : ExchangeResult)
  | fault (msg : String)
  deriving Repr, DecidableEq

/-- JavaScript `s || t` on strings: `t` when `s` is falsy (empty). -/
def jsOrElse (s t : String) : String := if s = "" then t else s

/-- Embeds the per-adapter `try/catch` wrapper inside the `promises`
map of `CryptoPriceChecker.getCryptoPrice`: a declared result passes
through, an unhandled exception becomes a failure outcome naming the
exchange with `error.message || 'Unknown error'`. -/
def runAdapter (name : String) (b : AdapterBehavior) : ExchangeResult :=
  match b with
  | .ret r => r
  | .fault msg =>
      { exchange := name
        success := false
        data := none
        error := some (jsOrElse msg ("Unknown error")) }

/-- Embeds `exchangeNames.map(async (exchangeName) => ...)`: one promise
per configured adapter, in configuration order. -/
def dispatchAll (beh : String → AdapterBehavior) : List ExchangeResult :=
  exchangeNames.map (fun n => runAdapter n (beh n))

/-- Models `Promise.allSettled`: the promises settle in an arbitrary
schedule order (`sched` lists the indices in completion order), each
completion storing its value at its own slot; the settled array is then
read out in index order. -/
def applySchedule {α : Type} (outs : List α) (sched : List ℕ) : List (Option α) :=
  sched.foldl (fun a i => a.set i outs[i]?) (List.replicate outs.length none)

/-- Embeds the `exchangeResults.forEach` loop: a fulfilled slot pushes
its value, an unsettled slot would push the fallback failure naming the
exchange (dead in practice because the wrapper catches everything). -/
def collectSettled (settled : List (Option ExchangeResult)) (names : List String) :
    List ExchangeResult :=
  settled.zipWith
    (fun o name =>
      o.getD { exchange := name, success := false, data := none,
               error := some ("Promise rejected") })
    names

/-- The whole `getCryptoPrice` pipeline for one symbol, parameterized by
the adapters' behaviors and by the completion schedule. -/
def getCryptoPriceSched (symbol : String) (beh : String → AdapterBehavior)
    (sched : List ℕ) : CryptoPriceResult :=
  getCryptoPriceFromResults symbol
    (collectSettled (applySchedule (dispatchAll beh) sched) exchangeNames)

lemma foldl_set_getElem? {α : Type} (outs : List α) (sched : List ℕ) :
    ∀ (acc : List (Option α)) (j : ℕ),
      (sched.foldl (fun a i => a.set i outs[i]?) acc)[j]? =
        if j ∈ sched ∧ j < acc.length then some outs[j]? else acc[j]? := by
  induction sched with
  | nil =>
    intro acc j
    simp
  | cons i rest ih =>
    intro acc j
    simp only [List.foldl_cons]
    rw [ih]
    by_cases hjr : j ∈ rest
    · by_cases hlt : j < acc.length
      · simp [hjr, hlt]
      · have h1 : (acc.set i outs[i]?)[j]? = none :=
          List.getElem?_eq_none (by simpa using Nat.le_of_not_lt hlt)
        have h2 : acc[j]? = none := List.getElem?_eq_none (Nat.le_of_not_lt hlt)
        simp [hjr, hlt, h1, h2]
    · by_cases hij : i = j
      · subst hij
        by_cases hlt : i < acc.length
        · simp [hjr, hlt, List.getElem?_set_self hlt]
        · have h1 : (acc.set i outs[i]?)[i]? = none :=
            List.getElem?_eq_none (by simpa using Nat.le_of_not_lt hlt)
          have h2 : acc[i]? = none := List.getElem?_eq_none (Nat.le_of_not_lt hlt)
          simp [hjr, hlt, h1, h2]
      · have hji : ¬(j = i) := fun h => hij h.symm
        simp [hjr, hji, List.getElem?_set_ne hij]

/-- Whatever permutation of the indices the completion schedule is, the
settled array holds exactly the dispatched outcomes in index order. -/
lemma applySchedule_perm {α : Type} (outs : List α) (sched : List ℕ)
    (h : sched.Perm (List.range outs.length)) :
    applySchedule outs sched = outs.map some := by
  apply List.ext_getElem?
  intro j
  unfold applySchedule
  rw [foldl_set_getElem?]
  by_cases hj : j < outs.length
  · have hmem : j ∈ sched := h.mem_iff.mpr (List.mem_range.mpr hj)
    simp [hmem, hj, List.getElem?_eq_getElem hj]
  · have hmem : j ∉ sched := fun hc =>
      hj (List.mem_range.mp (h.mem_iff.mp hc))
    have h2 : outs[j]? = none := List.getElem?_eq_none (Nat.le_of_not_lt hj)
    have h3 : outs.length ≤ j := Nat.le_of_not_lt hj
    simp [hmem, hj, h2, h3]

lemma collectSettled_map_some (outs : List ExchangeResult) (names : List String)
    (h : outs.length = names.length) :
    collectSettled (outs.map some) names = outs := by
  induction outs generalizing names with
  | nil => cases names <;> simp [collectSettled]
  | cons x xs ih =>
    cases names with
    | nil => simp at h
    | cons n ns =>
      simp only [collectSettled, List.map_cons, List.zipWith_cons_cons, Option.getD_some]
      have := ih ns (by simpa using h)
      simp only [collectSettled] at this
      rw [this]

lemma dispatchAll_length (beh : String → AdapterBehavior) :
    (dispatchAll beh).length = exchangeNames.length := by
  simp [dispatchAll]

lemma getCryptoPriceSched_results (symbol : String) (beh : String → AdapterBehavior)
    (sched : List ℕ) (h : sched.Perm (List.range exchangeNames.length)) :
    (getCryptoPriceSched symbol beh sched).results = dispatchAll beh := by
  have hperm : sched.Perm (List.range (dispatchAll beh).length) := by
    rwa [dispatchAll_length]
  show collectSettled (applySchedule (dispatchAll beh) sched) exchangeNames = _
  rw [applySchedule_perm _ _ hperm,
    collectSettled_map_some _ _ (dispatchAll_length beh)]

/-- C3: the outcome sequence of the aggregate result is always in the
fixed adapter-configuration order, independent of which adapter settles
first: any two completion schedules produce identical results, and the
i-th outcome is the outcome of the i-th configured adapter. -/
theorem outcome_order_deterministic (symbol : String) (beh : String → AdapterBehavior)
    (sched1 sched2 : List ℕ)
    (h1 : sched1.Perm (List.range exchangeNames.length))
    (h2 : sched2.Perm (List.range exchangeNames.length)) :
    getCryptoPriceSched symbol beh sched1 = getCryptoPriceSched symbol beh sched2
      ∧ (getCryptoPriceSched symbol beh sched1).results
          = exchangeNames.map (fun n => runAdapter n (beh n)) := by
  constructor
  · show getCryptoPriceFromResults _ _ = getCryptoPriceFromResults _ _
    have e1 := getCryptoPriceSched_results symbol beh sched1 h1
    have e2 := getCryptoPriceSched_results symbol beh sched2 h2
    simp only [getCryptoPriceSched] at e1 e2 ⊢
    rw [show (collectSettled (applySchedule (dispatchAll beh) sched1) exchangeNames)
        = dispatchAll beh from e1,
      show (collectSettled (applySchedule (dispatchAll beh) sched2) exchangeNames)
        = dispatchAll beh from e2]
  · exact getCryptoPriceSched_results symbol beh sched1 h1

/-- A sample adapter-behavior assignment used by concrete witnesses. -/
def sampleBehavior : String → AdapterBehavior := fun name =>
  if name = "kraken" then AdapterBehavior.ret sampleFailure
  else AdapterBehavior.ret sampleSuccess

theorem outcome_order_deterministic_witness :
    ((List.range exchangeNames.length).reverse.Perm (List.range exchangeNames.length)
      ∧ (List.range exchangeNames.length).Perm (List.range exchangeNames.length))
    ∧ getCryptoPriceSched ("BTC") sampleBehavior (List.range exchangeNames.length).reverse
        = getCryptoPriceSched ("BTC") sampleBehavior (List.range exchangeNames.length)
    ∧ (getCryptoPriceSched ("BTC") sampleBehavior (List.range exchangeNames.length).reverse).results
        = exchangeNames.map (fun n => runAdapter n (sampleBehavior n)) :=
  ⟨⟨List.reverse_perm _, List.Perm.refl _⟩,
   (outcome_order_deterministic ("BTC") sampleBehavior _ _
      (List.reverse_perm _) (List.Perm.refl _)).1,
   (outcome_order_deterministic ("BTC") sampleBehavior _ _
      (List.reverse_perm _) (List.Perm.refl _)).2⟩

/-- Replaces one adapter's behavior with an unhandled fault, leaving
every other adapter untouched (the experiment in the claim). -/
def overrideBeh (beh : String → AdapterBehavior) (name : String) (msg : String) :
    String → AdapterBehavior :=
  fun n => if n = name then AdapterBehavior.fault msg else beh n

/-- C4: if a single adapter throws an unhandled exception, the aggregate
result still has one outcome per configured adapter; the faulting
adapter's slot holds a failure outcome naming that exchange, and every
other slot is exactly what the fault-free run produced there. -/
lemma getCryptoPriceFromResults_totalExchanges (s : String) (rs : List ExchangeResult) :
    (getCryptoPriceFromResults s rs).totalExchanges = rs.length := rfl

lemma getCryptoPriceFromResults_results_eq (s : String) (rs : List ExchangeResult) :
    (getCryptoPriceFromResults s rs).results = rs := rfl

theorem adapter_fault_isolated (symbol : String) (beh : String → AdapterBehavior)
    (name msg : String) :
    (getCryptoPriceSched symbol (overrideBeh beh name msg)
        (List.range exchangeNames.length)).totalExchanges = exchangeNames.length
    ∧ (getCryptoPriceSched symbol (overrideBeh beh name msg)
        (List.range exchangeNames.length)).results.length = exchangeNames.length
    ∧ ∀ (i : ℕ) (n0 : String), exchangeNames[i]? = some n0 →
        ((n0 = name →
          (getCryptoPriceSched symbol (overrideBeh beh name msg)
              (List.range exchangeNames.length)).results[i]?
            = some ({ exchange := name, success := false, data := none,
                      error := some (jsOrElse msg ("Unknown error")) } : ExchangeResult))
        ∧ (n0 ≠ name →
          (getCryptoPriceSched symbol (overrideBeh beh name msg)
              (List.range exchangeNames.length)).results[i]?
            = (getCryptoPriceSched symbol beh
                (List.range exchangeNames.length)).results[i]?)) := by
  have hres := getCryptoPriceSched_results symbol (overrideBeh beh name msg)
    (List.range exchangeNames.length) (List.Perm.refl _)
  have hbase := getCryptoPriceSched_results symbol beh
    (List.range exchangeNames.length) (List.Perm.refl _)
  refine ⟨?_, ?_, ?_⟩
  · simp only [getCryptoPriceSched] at hres ⊢
    rw [getCryptoPriceFromResults_results_eq] at hres
    rw [getCryptoPriceFromResults_totalExchanges, hres, dispatchAll_length]
  · rw [hres, dispatchAll_length]
  · intro i n0 hn0
    rw [hres, hbase]
    constructor
    · intro heq
      subst heq
      simp only [dispatchAll, List.getElem?_map, hn0, Option.map_some]
      simp [overrideBeh, runAdapter]
    · intro hne
      simp only [dispatchAll, List.getElem?_map, hn0, Option.map_some]
      simp [overrideBeh, hne]

theorem adapter_fault_isolated_witness :
    (exchangeNames[5]? = some ("uniswap")
      ∧ (getCryptoPriceSched ("BTC") (overrideBeh sampleBehavior ("uniswap") ("boom"))
          (List.range exchangeNames.length)).results[5]?
        = some { exchange := "uniswap", success := false, data := none,
                 error := some (jsOrElse ("boom") ("Unknown error")) })
    ∧ (exchangeNames[0]? = some ("binance") ∧ ("binance" : String) ≠ ("uniswap")
      ∧ (getCryptoPriceSched ("BTC") (overrideBeh sampleBehavior ("uniswap") ("boom"))
          (List.range exchangeNames.length)).results[0]?
        = (getCryptoPriceSched ("BTC") sampleBehavior
            (List.range exchangeNames.length)).results[0]?) :=
  ⟨⟨by decide,
    ((adapter_fault_isolated ("BTC") sampleBehavior ("uniswap") ("boom")).2.2
      5 ("uniswap") (by decide)).1 rfl⟩,
   ⟨by decide, by decide,
    ((adapter_fault_isolated ("BTC") sampleBehavior ("uniswap") ("boom")).2.2
      0 ("binance") (by decide)).2 (by decide)⟩⟩

/-- Embeds the `TokenAddressInfo` interface of the token-address
service. -/
structure TokenAddressInfo where
  address : String
  chainId : ℕ
  symbol : String
  name : String
  decimals : ℕ
  source : String
  verified : Bool
  deriving Repr, DecidableEq

/-- Models JavaScript `toLowerCase()` as a per-character lower-casing
(ASCII-sufficient for hex contract addresses), written as a plain char
map so it evaluates inside the kernel. -/
def lowerString (s : String) : String := ⟨s.data.map Char.toLower⟩

/-- The case-insensitive grouping key: `result.address.toLowerCase()`. -/
def lowKey (r : TokenAddressInfo) : String := lowerString r.address

/-- One step of building the insertion-ordered address map: push `r`
onto the group keyed `k` if present, else append a new group at the
end (a JS `Map` preserves insertion order). -/
def insertGroup (m : List (String × List TokenAddressInfo)) (k : String)
    (r : TokenAddressInfo) : List (String × List TokenAddressInfo) :=
  match m with
  | [] => [(k, [r])]
  | (k0, g0) :: rest =>
      if k0 = k then (k0, g0 ++ [r]) :: rest
      else (k0, g0) :: insertGroup rest k r

/-- Embeds the `addressGroups` loop of
`TokenAddressService.verifyAndSelectBestResult`. -/
def groupByAddress (rs : List TokenAddressInfo) : List (String × List TokenAddressInfo) :=
  rs.foldl (fun m r => insertGroup m (lowKey r) r) []

/-- The source priority list of `verifyAndSelectBestResult`. -/
def sourcePriority : List String :=
  ["coingecko", "coinmarketcap", "moralis", "etherscan"]

/-- JavaScript `sourcePriority.indexOf(s)`: the index, or `-1` when the
source is unknown. -/
def indexOfSource (s : String) : ℤ :=
  match sourcePriority.indexOf? s with
  | some i => (i : ℤ)
  | none => -1

/-- Embeds the `maxConfirmations` scan: keep the current best
(address, count) pair, replacing it only on a strictly greater count. -/
def pickStep (b : String × ℕ) (g : String × List TokenAddressInfo) : String × ℕ :=
  if b.2 < g.2.length then (g.1, g.2.length) else b

/-- Stable insertion of a record into a list sorted by ascending
source-priority index: the record goes before the first strictly-or-equal
element it does not exceed, exactly where a stable comparator sort
(`sort((a, b) => aIndex - bIndex)`, stable per the ECMAScript spec)
would leave it. -/
def insertByPrio (a : TokenAddressInfo) : List TokenAddressInfo → List TokenAddressInfo
  | [] => [a]
  | b :: l =>
      if indexOfSource a.source ≤ indexOfSource b.source
      then a :: b :: l
      else b :: insertByPrio a l

/-- Stable sort by ascending source-priority index, the unique stable
result of the JS comparator sort in `verifyAndSelectBestResult`. -/
def sortByPrio : List TokenAddressInfo → List TokenAddressInfo
  | [] => []
  | a :: l => insertByPrio a (sortByPrio l)

/-- Embeds `TokenAddressService.verifyAndSelectBestResult`: single
result returned as-is; otherwise group by lower-cased address, pick the
first group with the strictly largest confirmation count, stably sort
that group by source priority and return its head.  Returns `none` only
on the empty list (which the caller rules out). -/
def verifyAndSelectBestResult (results : List TokenAddressInfo) :
    Option TokenAddressInfo :=
  if results.length = 1 then results.head?
  else
    let groups := groupByAddress results
    let best := groups.foldl pickStep (("", 0) : String × ℕ)
    let bestResults := ((groups.lookup best.1).getD [])
    (sortByPrio bestResults).head?

/-- The per-request resolver environment: what each of the four lookup
sources would contribute (`none` models both a miss and a thrown,
logged-and-skipped source error), whether the optional API keys are
configured, and the requested chain. -/
structure ResolverEnv where
  coingecko : Option TokenAddressInfo
  coinmarketcap : Option TokenAddressInfo
  moralis : Option TokenAddressInfo
  etherscan : Option TokenAddressInfo
  hasCmcKey : Bool
  hasMoralisKey : Bool
  chainId : ℕ
  deriving Repr, DecidableEq

/-- Embeds the collection phase of `TokenAddressService.getTokenAddress`:
sources are tried in the fixed order coingecko, coinmarketcap (if
credentialed), moralis (if credentialed), etherscan (mainnet only), and
each non-null result is pushed in that order. -/
def collectResults (env : ResolverEnv) : List TokenAddressInfo :=
  env.coingecko.toList
    ++ (if env.hasCmcKey then env.coinmarketcap.toList else [])
    ++ (if env.hasMoralisKey then env.moralis.toList else [])
    ++ (if env.chainId = 1 then env.etherscan.toList else [])

/-- Embeds the decision tail of `TokenAddressService.getTokenAddress`:
zero collected results is the NotFound failure, otherwise the verified
selection is returned as the success payload. -/
def getTokenAddress (env : ResolverEnv) : Option TokenAddressInfo :=
  let results := collectResults env
  if results.length = 0 then none
  else verifyAndSelectBestResult results

/-- Number of collected sources agreeing with `a` up to case. -/
def agreeCount (rs : List TokenAddressInfo) (a : String) : ℕ :=
  (rs.filter (fun r => lowKey r == lowerString a)).length

/-- The collected list is in query order: source priorities strictly
increase along it (each source contributes at most once, in the fixed
cascade order). -/
def sortedByPriority (rs : List TokenAddressInfo) : Prop :=
  (rs.map (fun r => indexOfSource r.source)).Pairwise (· < ·)

/-- First-occurrence deduplicated keys, in order. -/
def keysOf : List TokenAddressInfo → List String
  | [] => []
  | r :: rest => lowKey r :: (keysOf rest).filter (fun k => !(k == lowKey r))

lemma mem_keysOf {rs : List TokenAddressInfo} {k : String} :
    k ∈ keysOf rs ↔ ∃ r ∈ rs, lowKey r = k := by
  induction rs with
  | nil => simp [keysOf]
  | cons r rest ih =>
    simp only [keysOf, List.mem_cons, List.mem_filter, ih]
    constructor
    · rintro (h | ⟨⟨a, ha, hk⟩, _⟩)
      · exact ⟨r, Or.inl rfl, h.symm⟩
      · exact ⟨a, Or.inr ha, hk⟩
    · rintro ⟨a, (rfl | ha), hk⟩
      · exact Or.inl hk.symm
      · by_cases hkr : k = lowKey r
        · exact Or.inl hkr
        · exact Or.inr ⟨⟨a, ha, hk⟩, by simpa using hkr⟩

lemma keysOf_nodup (rs : List TokenAddressInfo) : (keysOf rs).Nodup := by
  induction rs with
  | nil => simp [keysOf]
  | cons r rest ih =>
    refine List.Nodup.cons ?_ (List.Nodup.filter _ ih)
    intro hmem
    have := (List.mem_filter.mp hmem).2
    simp at this

lemma keysOf_append_one (P : List TokenAddressInfo) (r : TokenAddressInfo) :
    keysOf (P ++ [r]) =
      if lowKey r ∈ keysOf P then keysOf P else keysOf P ++ [lowKey r] := by
  induction P with
  | nil => simp [keysOf]
  | cons p P ih =>
    have hcons : keysOf ((p :: P) ++ [r])
        = lowKey p :: (keysOf (P ++ [r])).filter (fun k => !(k == lowKey p)) := rfl
    have hcons2 : keysOf (p :: P)
        = lowKey p :: (keysOf P).filter (fun k => !(k == lowKey p)) := rfl
    by_cases hmem : lowKey r ∈ keysOf P
    · have hm2 : lowKey r ∈ keysOf (p :: P) := by
        rw [hcons2]
        by_cases he : lowKey r = lowKey p
        · simp [he]
        · exact List.mem_cons_of_mem _ (List.mem_filter.mpr ⟨hmem, by simpa using he⟩)
      rw [hcons, ih, if_pos hmem, if_pos hm2, hcons2]
    · by_cases he : lowKey r = lowKey p
      · have hm2 : lowKey r ∈ keysOf (p :: P) := by
          rw [hcons2, he]
          exact List.mem_cons_self _ _
        rw [hcons, ih, if_neg hmem, if_pos hm2, List.filter_append, hcons2]
        simp [he]
      · have hm2 : lowKey r ∉ keysOf (p :: P) := by
          rw [hcons2]
          intro hc
          rcases List.mem_cons.mp hc with h1 | h1
          · exact he h1
          · exact hmem (List.mem_filter.mp h1).1
        rw [hcons, ih, if_neg hmem, if_neg hm2, List.filter_append, hcons2]
        simp [he]

lemma insertGroup_map_not_mem (f : String → List TokenAddressInfo)
    (K : List String) (key : String) (r : TokenAddressInfo) (h : key ∉ K) :
    insertGroup (K.map (fun k => (k, f k))) key r
      = K.map (fun k => (k, f k)) ++ [(key, [r])] := by
  induction K with
  | nil => simp [insertGroup]
  | cons k0 K ih =>
    have hne : k0 ≠ key := fun he => h (by simp [he])
    simp only [List.map_cons, insertGroup, if_neg hne, List.cons_append]
    rw [ih (fun hm => h (List.mem_cons_of_mem _ hm))]

lemma insertGroup_map_mem (f : String → List TokenAddressInfo)
    (K : List String) (key : String) (r : TokenAddressInfo)
    (hnd : K.Nodup) (h : key ∈ K) :
    insertGroup (K.map (fun k => (k, f k))) key r
      = K.map (fun k => (k, if k = key then f k ++ [r] else f k)) := by
  induction K with
  | nil => simp at h
  | cons k0 K ih =>
    by_cases he : k0 = key
    · subst he
      have hnotin : k0 ∉ K := (List.nodup_cons.mp hnd).1
      have hmap : K.map (fun k => (k, if k = k0 then f k ++ [r] else f k))
          = K.map (fun k => (k, f k)) := by
        apply List.map_congr_left
        intro k hk
        have hne : k ≠ k0 := fun hkk => hnotin (hkk ▸ hk)
        simp [hne]
      simp [insertGroup, hmap]
    · have hmem : key ∈ K := by
        rcases List.mem_cons.mp h with h1 | h1
        · exact absurd h1.symm he
        · exact h1
      have := ih (List.nodup_cons.mp hnd).2 hmem
      simp [insertGroup, he, this]

lemma groupBy_foldl (rest : List TokenAddressInfo) :
    ∀ P : List TokenAddressInfo,
      rest.foldl (fun m r => insertGroup m (lowKey r) r)
          ((keysOf P).map (fun k => (k, P.filter (fun x => lowKey x == k))))
        = (keysOf (P ++ rest)).map
            (fun k => (k, (P ++ rest).filter (fun x => lowKey x == k))) := by
  induction rest with
  | nil => intro P; simp
  | cons r rest ih =>
    intro P
    simp only [List.foldl_cons]
    have hstep : insertGroup
        ((keysOf P).map (fun k => (k, P.filter (fun x => lowKey x == k))))
        (lowKey r) r
        = (keysOf (P ++ [r])).map
            (fun k => (k, (P ++ [r]).filter (fun x => lowKey x == k))) := by
      by_cases hmem : lowKey r ∈ keysOf P
      · rw [insertGroup_map_mem _ _ _ _ (keysOf_nodup P) hmem,
          keysOf_append_one, if_pos hmem]
        apply List.map_congr_left
        intro k hk
        rw [List.filter_append]
        by_cases he : k = lowKey r
        · subst he
          simp
        · have : ¬(lowKey r == k) = true := by simpa using fun hc => he hc.symm
          simp [he, this]
      · rw [insertGroup_map_not_mem _ _ _ _ hmem, keysOf_append_one,
          if_neg hmem, List.map_append]
        congr 1
        · apply List.map_congr_left
          intro k hk
          rw [List.filter_append]
          have hne : k ≠ lowKey r := fun he => hmem (he ▸ hk)
          have : ¬(lowKey r == k) = true := by simpa using fun hc => hne hc.symm
          simp [this]
        · have hfil : P.filter (fun x => lowKey x == lowKey r) = [] := by
            rw [List.filter_eq_nil_iff]
            intro a ha hc
            exact hmem (mem_keysOf.mpr ⟨a, ha, by simpa using hc⟩)
          simp [List.filter_append, hfil]
    rw [hstep, ih (P ++ [r]), List.append_assoc]
    rfl

lemma groupByAddress_eq (rs : List TokenAddressInfo) :
    groupByAddress rs
      = (keysOf rs).map (fun k => (k, rs.filter (fun x => lowKey x == k))) := by
  have := groupBy_foldl rs []
  simpa [keysOf, groupByAddress] using this

lemma lookup_map (K : List String) (f : String → List TokenAddressInfo)
    (k : String) (h : k ∈ K) :
    (K.map (fun k0 => (k0, f k0))).lookup k = some (f k) := by
  induction K with
  | nil => simp at h
  | cons k0 K ih =>
    by_cases he : k0 = k
    · subst he
      simp [List.lookup]
    · have hmem : k ∈ K := by
        rcases List.mem_cons.mp h with h1 | h1
        · exact absurd h1.symm he
        · exact h1
      have hne : (k == k0) = false := beq_eq_false_iff_ne.mpr (fun hc => he hc.symm)
      simp [List.lookup, hne, ih hmem]

lemma pickFold_spec (gs : List (String × List TokenAddressInfo)) :
    ∀ b : String × ℕ,
      b.2 ≤ (gs.foldl pickStep b).2
      ∧ (∀ g ∈ gs, g.2.length ≤ (gs.foldl pickStep b).2)
      ∧ (gs.foldl pickStep b = b
         ∨ ∃ l1 g l2, gs = l1 ++ g :: l2
             ∧ gs.foldl pickStep b = (g.1, g.2.length)
             ∧ b.2 < g.2.length
             ∧ (∀ g1 ∈ l1, g1.2.length < g.2.length)
             ∧ (∀ g2 ∈ l2, g2.2.length ≤ g.2.length)) := by
  induction gs with
  | nil =>
    intro b
    exact ⟨le_refl _, by simp, Or.inl rfl⟩
  | cons g0 gs ih =>
    intro b
    obtain ⟨ih1, ih2, ih3⟩ := ih (pickStep b g0)
    have hstep : b.2 ≤ (pickStep b g0).2 := by
      unfold pickStep
      split
      · exact le_of_lt (by assumption)
      · exact le_refl _
    have hg0 : g0.2.length ≤ (pickStep b g0).2 := by
      unfold pickStep
      split
      · exact le_refl _
      · omega
    refine ⟨le_trans hstep ih1, ?_, ?_⟩
    · intro g hg
      rcases List.mem_cons.mp hg with h1 | h1
      · subst h1
        exact le_trans hg0 ih1
      · exact ih2 g h1
    · rcases ih3 with hsame | ⟨l1, g, l2, hgs, hres, hlt, hbefore, hafter⟩
      · by_cases hb : b.2 < g0.2.length
        · right
          refine ⟨[], g0, gs, by simp, ?_, hb, by simp, ?_⟩
          · show (g0 :: gs).foldl pickStep b = _
            simp only [List.foldl_cons]
            rw [hsame]
            unfold pickStep
            rw [if_pos hb]
          · intro g2 hg2
            have := ih2 g2 hg2
            rw [hsame] at this
            unfold pickStep at this
            rw [if_pos hb] at this
            exact this
        · left
          show (g0 :: gs).foldl pickStep b = b
          simp only [List.foldl_cons]
          rw [hsame]
          unfold pickStep
          rw [if_neg hb]
      · right
        refine ⟨g0 :: l1, g, l2, by rw [hgs]; rfl, ?_, ?_, ?_, hafter⟩
        · show (g0 :: gs).foldl pickStep b = _
          simp only [List.foldl_cons]
          exact hres
        · exact lt_of_le_of_lt hstep hlt
        · intro g1 hg1
          rcases List.mem_cons.mp hg1 with h1 | h1
          · subst h1
            exact lt_of_le_of_lt hg0 hlt
          · exact hbefore g1 h1

lemma keys_before (rs : List TokenAddressInfo) (k1 k2 : String)
    (h : [k1, k2].Sublist (keysOf rs)) :
    ∃ u w v, rs = u ++ w :: v ∧ lowKey w = k1 ∧ (∀ b ∈ u, lowKey b ≠ k2) := by
  induction rs with
  | nil => simp [keysOf] at h
  | cons r rest ih =>
    have hcons : keysOf (r :: rest)
        = lowKey r :: (keysOf rest).filter (fun k => !(k == lowKey r)) := rfl
    rw [hcons] at h
    cases h with
    | cons _ htail =>
      obtain ⟨u, w, v, hrs, hw, hu⟩ :=
        ih (htail.trans (List.filter_sublist _))
      have hk2 : k2 ∈ (keysOf rest).filter (fun k => !(k == lowKey r)) :=
        htail.subset (by simp)
      have hrk2 : lowKey r ≠ k2 := by
        have := (List.mem_filter.mp hk2).2
        simp only [Bool.not_eq_eq_eq_not, Bool.not_true, beq_eq_false_iff_ne] at this
        exact fun he => this he.symm
      exact ⟨r :: u, w, v, by rw [hrs]; rfl, hw, by
        intro b hb
        rcases List.mem_cons.mp hb with h1 | h1
        · exact h1 ▸ hrk2
        · exact hu b h1⟩
    | @cons₂ _ _ _ htail =>
      have hk2 : k2 ∈ (keysOf rest).filter (fun k => !(k == lowKey r)) :=
        htail.subset (by simp)
      exact ⟨[], r, rest, rfl, rfl, by simp⟩

lemma prio_lt_of_split {u v : List TokenAddressInfo} {w b : TokenAddressInfo}
    (hord : sortedByPriority (u ++ w :: v)) (hb : b ∈ v) :
    indexOfSource w.source < indexOfSource b.source := by
  unfold sortedByPriority at hord
  rw [List.map_append, List.pairwise_append] at hord
  have h2 := hord.2.1
  rw [List.map_cons, List.pairwise_cons] at h2
  exact h2.1 _ (List.mem_map_of_mem _ hb)

lemma insertByPrio_perm (a : TokenAddressInfo) (l : List TokenAddressInfo) :
    (insertByPrio a l).Perm (a :: l) := by
  induction l with
  | nil => exact List.Perm.refl _
  | cons b l ih =>
    unfold insertByPrio
    split
    · exact List.Perm.refl _
    · exact (List.Perm.cons b ih).trans (List.Perm.swap a b l)

lemma sortByPrio_perm (l : List TokenAddressInfo) : (sortByPrio l).Perm l := by
  induction l with
  | nil => exact List.Perm.refl _
  | cons a l ih =>
    exact (insertByPrio_perm a (sortByPrio l)).trans (List.Perm.cons a ih)

lemma insertByPrio_sorted {l : List TokenAddressInfo} (a : TokenAddressInfo)
    (h : l.Pairwise (fun x y => indexOfSource x.source ≤ indexOfSource y.source)) :
    (insertByPrio a l).Pairwise
      (fun x y => indexOfSource x.source ≤ indexOfSource y.source) := by
  induction l with
  | nil => simp [insertByPrio]
  | cons b l ih =>
    unfold insertByPrio
    split
    · refine List.pairwise_cons.mpr ⟨?_, h⟩
      intro c hc
      rcases List.mem_cons.mp hc with rfl | hc
      · assumption
      · exact le_trans (by assumption) ((List.pairwise_cons.mp h).1 c hc)
    · obtain ⟨hb, hl⟩ := List.pairwise_cons.mp h
      refine List.pairwise_cons.mpr ⟨?_, ih hl⟩
      intro c hc
      have hc2 : c ∈ a :: l := (insertByPrio_perm a l).mem_iff.mp hc
      rcases List.mem_cons.mp hc2 with rfl | hc2
      · exact le_of_not_le (by assumption)
      · exact hb c hc2

lemma sortByPrio_sorted (l : List TokenAddressInfo) :
    (sortByPrio l).Pairwise
      (fun x y => indexOfSource x.source ≤ indexOfSource y.source) := by
  induction l with
  | nil => simp [sortByPrio]
  | cons a l ih => exact insertByPrio_sorted a ih

lemma sortByPrio_head_min (l : List TokenAddressInfo) (r0 : TokenAddressInfo)
    (h : (sortByPrio l).head? = some r0) :
    r0 ∈ l ∧ ∀ b ∈ l, indexOfSource r0.source ≤ indexOfSource b.source := by
  have hperm := sortByPrio_perm l
  have hsorted := sortByPrio_sorted l
  cases hms : sortByPrio l with
  | nil =>
    rw [hms] at h
    simp at h
  | cons x xs =>
    rw [hms] at h hperm hsorted
    simp only [List.head?_cons, Option.some.injEq] at h
    subst h
    constructor
    · exact hperm.mem_iff.mp (by simp)
    · intro b hb
      have hbmem : b ∈ x :: xs := hperm.mem_iff.mpr hb
      rcases List.mem_cons.mp hbmem with h1 | h1
      · exact h1 ▸ le_refl _
      · exact (List.pairwise_cons.mp hsorted).1 b h1

lemma agreeCount_lowKey (rs : List TokenAddressInfo) (a : TokenAddressInfo) :
    agreeCount rs a.address
      = (rs.filter (fun x => lowKey x == lowKey a)).length := rfl

/-- C5: the resolver cascade returns NotFound on zero collected results,
the single result when exactly one source succeeded, and otherwise a
collected record whose (case-insensitive) address has the greatest
number of agreeing sources; the selected record carries the best
priority inside its group, and when another address ties on count the
selected address is backed by a strictly higher-priority source than
every backer of the tied address (sources being in query order). -/
theorem token_resolver_selection (rs : List TokenAddressInfo) :
    (∀ env : ResolverEnv, collectResults env = [] → getTokenAddress env = none)
    ∧ (∀ env : ResolverEnv, collectResults env ≠ [] →
        getTokenAddress env = verifyAndSelectBestResult (collectResults env))
    ∧ (∀ r : TokenAddressInfo, verifyAndSelectBestResult [r] = some r)
    ∧ (rs ≠ [] →
        ∃ r0, verifyAndSelectBestResult rs = some r0 ∧ r0 ∈ rs
          ∧ (∀ a ∈ rs, agreeCount rs a.address ≤ agreeCount rs r0.address)
          ∧ (∀ b ∈ rs, lowKey b = lowKey r0 →
              indexOfSource r0.source ≤ indexOfSource b.source)
          ∧ (sortedByPriority rs →
              ∀ a ∈ rs, lowKey a ≠ lowKey r0 →
                agreeCount rs a.address = agreeCount rs r0.address →
                ∃ w ∈ rs, lowKey w = lowKey r0
                  ∧ ∀ b ∈ rs, lowKey b = lowKey a →
                      indexOfSource w.source < indexOfSource b.source)) := by
  refine ⟨?_, ?_, ?_, ?_⟩
  · intro env h
    unfold getTokenAddress
    simp [h]
  · intro env h
    unfold getTokenAddress
    rw [if_neg (by simpa using h)]
  · intro r
    simp [verifyAndSelectBestResult]
  · intro hne
    by_cases hlen1 : rs.length = 1
    · obtain ⟨r, rfl⟩ := List.length_eq_one.mp hlen1
      refine ⟨r, by simp [verifyAndSelectBestResult], by simp, ?_, ?_, ?_⟩
      · intro a ha
        rcases List.mem_singleton.mp ha with rfl
        exact le_refl _
      · intro b hb _
        rcases List.mem_singleton.mp hb with rfl
        exact le_refl _
      · intro _ a ha hane _
        rcases List.mem_singleton.mp ha with rfl
        exact absurd rfl hane
    · obtain ⟨hb1, hb2, hb3⟩ := pickFold_spec (groupByAddress rs) (("", 0) : String × ℕ)
      have hgroups := groupByAddress_eq rs
      obtain ⟨rh, rt, rfl⟩ : ∃ rh rt, rs = rh :: rt := by
        cases rs with
        | nil => exact absurd rfl hne
        | cons rh rt => exact ⟨rh, rt, rfl⟩
      set rs := rh :: rt with hrs
      have hheadkey : lowKey rh ∈ keysOf rs := mem_keysOf.mpr ⟨rh, by simp [hrs], rfl⟩
      have hheadgrp : (lowKey rh, rs.filter (fun x => lowKey x == lowKey rh))
          ∈ groupByAddress rs := by
        rw [hgroups]
        exact List.mem_map_of_mem _ hheadkey
      have hheadlen : 0 < (rs.filter (fun x => lowKey x == lowKey rh)).length := by
        have : rh ∈ rs.filter (fun x => lowKey x == lowKey rh) :=
          List.mem_filter.mpr ⟨by simp [hrs], by simp⟩
        exact List.length_pos.mpr (fun hnil => by simp [hnil] at this)
      rcases hb3 with hsame | ⟨l1, g, l2, hgs, hres, hlt0, hbef, haft⟩
      · exfalso
        have := hb2 _ hheadgrp
        rw [hsame] at this
        simp only at this
        omega
      · have hgmem : g ∈ groupByAddress rs := by
          rw [hgs]
          exact List.mem_append_right _ (List.mem_cons_self _ _)
        obtain ⟨kstar, hkK, hfk⟩ : ∃ k ∈ keysOf rs,
            (k, rs.filter (fun x => lowKey x == k)) = g := by
          rw [hgroups] at hgmem
          obtain ⟨k, hk, he⟩ := List.mem_map.mp hgmem
          exact ⟨k, hk, he⟩
        have hg1 : g.1 = kstar := by rw [← hfk]
        have hg2 : g.2 = rs.filter (fun x => lowKey x == kstar) := by rw [← hfk]
        have hlookup : (groupByAddress rs).lookup g.1
            = some (rs.filter (fun x => lowKey x == kstar)) := by
          rw [hg1, hgroups]
          exact lookup_map _ _ _ hkK
        have hfilterlen : 0 < (rs.filter (fun x => lowKey x == kstar)).length := by
          have := hlt0
          simp only at this
          rw [hg2] at this
          omega
        obtain ⟨x, xs, hms⟩ : ∃ x xs,
            sortByPrio (rs.filter (fun x => lowKey x == kstar)) = x :: xs := by
          cases hm : sortByPrio (rs.filter (fun x => lowKey x == kstar)) with
          | nil =>
            exfalso
            have := (sortByPrio_perm (rs.filter (fun x => lowKey x == kstar))).length_eq
            rw [hm] at this
            simp at this
            omega
          | cons x xs => exact ⟨x, xs, rfl⟩
        have hsel : verifyAndSelectBestResult rs = some x := by
          unfold verifyAndSelectBestResult
          rw [if_neg hlen1]
          show (sortByPrio (((groupByAddress rs).lookup
              ((groupByAddress rs).foldl pickStep (("", 0) : String × ℕ)).1).getD
                [])).head? = some x
          rw [hres]
          show (sortByPrio (((groupByAddress rs).lookup g.1).getD [])).head? = some x
          rw [hlookup]
          show (sortByPrio (rs.filter (fun x => lowKey x == kstar))).head? = some x
          rw [hms]
          rfl
        obtain ⟨hxmem, hxmin⟩ := sortByPrio_head_min
          (rs.filter (fun x => lowKey x == kstar)) x (by rw [hms]; rfl)
        have hxrs : x ∈ rs := (List.filter_sublist rs).subset hxmem
        have hxkey : lowKey x = kstar := by
          have := (List.mem_filter.mp hxmem).2
          simpa using this
        have hcount_r0 : agreeCount rs x.address = g.2.length := by
          rw [agreeCount_lowKey, hxkey, hg2]
        refine ⟨x, hsel, hxrs, ?_, ?_, ?_⟩
        · intro a ha
          have hka : lowKey a ∈ keysOf rs := mem_keysOf.mpr ⟨a, ha, rfl⟩
          have hgrp : (lowKey a, rs.filter (fun y => lowKey y == lowKey a))
              ∈ groupByAddress rs := by
            rw [hgroups]
            exact List.mem_map_of_mem _ hka
          have := hb2 _ hgrp
          rw [hres] at this
          simp only at this
          rw [agreeCount_lowKey, hcount_r0]
          exact this
        · intro b hb hkey
          exact hxmin b (List.mem_filter.mpr ⟨hb, by simp [hkey, hxkey]⟩)
        · intro hord a ha hane hacount
          have hka : lowKey a ∈ keysOf rs := mem_keysOf.mpr ⟨a, ha, rfl⟩
          have hkane : lowKey a ≠ kstar := fun hc => hane (hc.trans hxkey.symm)
          have hgrp : (lowKey a, rs.filter (fun y => lowKey y == lowKey a))
              ∈ groupByAddress rs := by
            rw [hgroups]
            exact List.mem_map_of_mem _ hka
          have hgrplen : (rs.filter (fun y => lowKey y == lowKey a)).length
              = g.2.length := by
            have h1 : agreeCount rs a.address
                = (rs.filter (fun y => lowKey y == lowKey a)).length :=
              agreeCount_lowKey rs a
            rw [← h1, hacount, hcount_r0]
          have hnotl1 : (lowKey a, rs.filter (fun y => lowKey y == lowKey a)) ∉ l1 := by
            intro hc
            have := hbef _ hc
            simp only at this
            omega
          have hnotg : (lowKey a, rs.filter (fun y => lowKey y == lowKey a)) ≠ g := by
            intro hc
            exact hkane (by rw [← hg1, ← hc])
          have hinl2 : (lowKey a, rs.filter (fun y => lowKey y == lowKey a)) ∈ l2 := by
            have := hgrp
            rw [hgs] at this
            rcases List.mem_append.mp this with h1 | h1
            · exact absurd h1 hnotl1
            · rcases List.mem_cons.mp h1 with h2 | h2
              · exact absurd h2 hnotg
              · exact h2
          obtain ⟨K1, K2, hK, hK1, hK2⟩ := List.map_eq_append_iff.mp (hgroups ▸ hgs)
          obtain ⟨k2h, K2t, hK2e, hfk2h, hK2t⟩ := List.map_eq_cons_iff.mp hK2
          have hk2h : k2h = kstar := by
            have : k2h = g.1 := by rw [← hfk2h]
            rw [this, hg1]
          obtain ⟨kb, hkbmem, hfkb⟩ := List.mem_map.mp (hK2t ▸ hinl2)
          have hkb : kb = lowKey a := by
            have : kb = (kb, rs.filter (fun y => lowKey y == kb)).1 := rfl
            rw [this, hfkb]
          have hsub : [kstar, lowKey a].Sublist (keysOf rs) := by
            have s1 : [lowKey a].Sublist K2t :=
              List.singleton_sublist.mpr (hkb ▸ hkbmem)
            have s2 : [kstar, lowKey a].Sublist (kstar :: K2t) :=
              List.Sublist.cons₂ _ s1
            have s3 : (kstar :: K2t).Sublist (K1 ++ kstar :: K2t) :=
              List.sublist_append_right _ _
            have : keysOf rs = K1 ++ kstar :: K2t := by
              rw [hK, hK2e, hk2h]
            rw [this]
            exact s2.trans s3
          obtain ⟨u, w, v, hsplit, hwkey, hu⟩ := keys_before rs kstar (lowKey a) hsub
          refine ⟨w, by rw [hsplit]; exact List.mem_append_right _ (List.mem_cons_self _ _),
            by rw [hwkey, hxkey], ?_⟩
          intro b hb hbkey
          have hbv : b ∈ v := by
            rw [hsplit] at hb
            rcases List.mem_append.mp hb with h1 | h1
            · exact absurd hbkey (hu b h1)
            · rcases List.mem_cons.mp h1 with h2 | h2
              · exfalso
                rw [h2] at hbkey
                exact hkane (hbkey.symm.trans hwkey)
              · exact h2
          have hordsplit : sortedByPriority (u ++ w :: v) := by
            rwa [hsplit] at hord
          exact prio_lt_of_split hordsplit hbv

/-- Sample coingecko record used by the resolver witness. -/
def sampleCG : TokenAddressInfo :=
  { address := "0xAB", chainId := 1, symbol := "USDT", name := "Tether",
    decimals := 6, source := "coingecko", verified := true }

/-- Sample coinmarketcap record (the dissenting address). -/
def sampleCMC : TokenAddressInfo :=
  { address := "0xCD", chainId := 1, symbol := "USDT", name := "Tether",
    decimals := 6, source := "coinmarketcap", verified := true }

/-- Sample moralis record agreeing with coingecko up to case. -/
def sampleMor : TokenAddressInfo :=
  { address := "0xab", chainId := 1, symbol := "USDT", name := "Tether",
    decimals := 6, source := "moralis", verified := true }

theorem token_resolver_selection_witness :
    (([sampleCG, sampleCMC, sampleMor] : List TokenAddressInfo) ≠ [])
    ∧ (∃ r0, verifyAndSelectBestResult [sampleCG, sampleCMC, sampleMor] = some r0
        ∧ r0 ∈ [sampleCG, sampleCMC, sampleMor]
        ∧ (∀ a ∈ [sampleCG, sampleCMC, sampleMor],
            agreeCount [sampleCG, sampleCMC, sampleMor] a.address
              ≤ agreeCount [sampleCG, sampleCMC, sampleMor] r0.address)
        ∧ (∀ b ∈ [sampleCG, sampleCMC, sampleMor], lowKey b = lowKey r0 →
            indexOfSource r0.source ≤ indexOfSource b.source)
        ∧ (sortedByPriority [sampleCG, sampleCMC, sampleMor] →
            ∀ a ∈ [sampleCG, sampleCMC, sampleMor], lowKey a ≠ lowKey r0 →
              agreeCount [sampleCG, sampleCMC, sampleMor] a.address
                = agreeCount [sampleCG, sampleCMC, sampleMor] r0.address →
              ∃ w ∈ [sampleCG, sampleCMC, sampleMor], lowKey w = lowKey r0
                ∧ ∀ b ∈ [sampleCG, sampleCMC, sampleMor], lowKey b = lowKey a →
                    indexOfSource w.source < indexOfSource b.source))
    ∧ verifyAndSelectBestResult [sampleCG, sampleCMC, sampleMor] = some sampleCG :=
  ⟨by decide, (token_resolver_selection [sampleCG, sampleCMC, sampleMor]).2.2.2 (by decide),
   by decide⟩

/-- Embeds `UniswapExchange.calculatePriceFromSqrtPriceX96` over exact
rationals: `(sqrtPriceX96 / 2^96)^2 * 10^(token0Decimals - token1Decimals)`
(the float computation idealized over `ℚ`; the exponent is an integer and
may be negative, matching `Math.pow`). -/
def calculatePriceFromSqrtPriceX96 (sqrtPriceX96 : ℕ)
    (token0Decimals token1Decimals : ℤ) : ℚ :=
  let price : ℚ := (sqrtPriceX96 : ℚ) / ((2 : ℚ) ^ 96)
  let priceSquared := price * price
  priceSquared * (10 : ℚ) ^ (token0Decimals - token1Decimals)

/-- The pool state consumed by the price branch of
`UniswapExchange.getPrice` (from `getPoolInfo`). -/
structure PoolState where
  token0Address : String
  token1Address : String
  token0Decimals : ℕ
  token1Decimals : ℕ
  sqrtPriceX96 : ℕ
  deriving Repr, DecidableEq

/-- Embeds the price-calculation branch of `UniswapExchange.getPrice`:
determine which pool side the queried token is, call the converter with
(queried-token decimals, other-side decimals) — note the swap when the
queried token is token1 — and invert the result for the token1 case. -/
def uniswapComputedPrice (pool : PoolState) (tokenAddress : String) : ℚ :=
  let isToken0 := lowerString pool.token0Address == lowerString tokenAddress
  let tokenDecimals := if isToken0 then pool.token0Decimals else pool.token1Decimals
  let usdcDecimals := if isToken0 then pool.token1Decimals else pool.token0Decimals
  let rawPrice := calculatePriceFromSqrtPriceX96 pool.sqrtPriceX96
    (tokenDecimals : ℤ) (usdcDecimals : ℤ)
  if isToken0 then rawPrice else 1 / rawPrice

/-- Follows the spec's words (the raw square-root-price-derived value):
`(sqrtPriceX96 / 2^96)^2 * 10^(decimalsToken0 - decimalsToken1)` with the
pool's own token ordering; per the claim, a token1 query must return the
reciprocal of this value. -/
def specRawValue (pool : PoolState) : ℚ :=
  (((pool.sqrtPriceX96 : ℚ) / ((2 : ℚ) ^ 96)) ^ 2)
    * (10 : ℚ) ^ ((pool.token0Decimals : ℤ) - (pool.token1Decimals : ℤ))

/-- A USDC(6-decimals)/WETH(18-decimals) pool at square-root price 2^96
(raw ratio 1), the failing fixture for the token1 branch. -/
def usdcWethPool : PoolState :=
  { token0Address := "0xUSDC", token1Address := "0xWETH",
    token0Decimals := 6, token1Decimals := 18, sqrtPriceX96 := 2 ^ 96 }

/-- C6: the claim fails on the code.  Querying the pool's token1 (WETH
on a USDC/WETH pool with decimals 6 and 18 and raw ratio 1) the adapter
computes 10^-12, while the reciprocal of the raw square-root-derived
value demanded by the claim is 10^12 — the code swaps the two decimal
exponents before inverting, so the decimal adjustment is applied twice
in the wrong direction.  A token0 query (last conjunct) does match the
spec formula. -/
theorem uniswap_token1_price_bug :
    uniswapComputedPrice usdcWethPool ("0xWETH") = 1 / 10 ^ 12
    ∧ 1 / specRawValue usdcWethPool = 10 ^ 12
    ∧ uniswapComputedPrice usdcWethPool ("0xWETH") ≠ 1 / specRawValue usdcWethPool
    ∧ uniswapComputedPrice usdcWethPool ("0xUSDC") = specRawValue usdcWethPool := by
  have hb : (lowerString ("0xUSDC") == lowerString ("0xWETH")) = false := by decide
  have hb0 : (lowerString ("0xUSDC") == lowerString ("0xUSDC")) = true := by decide
  have h1 : uniswapComputedPrice usdcWethPool ("0xWETH") = 1 / 10 ^ 12 := by
    simp only [uniswapComputedPrice, usdcWethPool, calculatePriceFromSqrtPriceX96, hb]
    norm_num
  have h2 : 1 / specRawValue usdcWethPool = 10 ^ 12 := by
    simp only [specRawValue, usdcWethPool]
    norm_num
  refine ⟨h1, h2, ?_, ?_⟩
  · intro hc
    rw [h1] at hc
    have h3 : specRawValue usdcWethPool = 1 / 10 ^ 12 := by
      simp only [specRawValue, usdcWethPool]
      norm_num
    rw [h3] at hc
    norm_num at hc
  · simp only [uniswapComputedPrice, usdcWethPool, calculatePriceFromSqrtPriceX96,
      specRawValue, hb0]
    norm_num

/-- JavaScript numbers as the CEX/DEX parsing paths can produce them:
a finite value, `NaN` (e.g. `parseFloat` of a missing field), or a
signed infinity (division by zero). -/
inductive JsNum where
  | finite (q : ℚ)
  | nan
  | posInf
  | negInf
  deriving Repr, DecidableEq

/-- Models `parseFloat(field)` on an optional numeric field: a missing
field is `parseFloat(undefined) = NaN`, a present field carries its
parsed value. -/
def jsParseFloat : Option ℚ → JsNum
  | some q => JsNum.finite q
  | none => JsNum.nan

/-- What one adapter HTTP round trip can yield: a 2xx response with a
parsed JSON body, or a thrown error (non-2xx, timeout, network) whose
message the `catch` block reads. -/
inductive HttpResponse (β : Type) where
  | ok (body : β)
  | error (msg : String)
  deriving Repr, DecidableEq

/-- The Binance ticker body as the adapter reads it: `response.data.price`
may be absent. -/
structure BinanceBody where
  price : Option ℚ
  deriving Repr, DecidableEq

/-- Adapter-level price data whose `price` can be `NaN` (the `PriceData`
interface populated by `parseFloat`). -/
structure JsPriceData where
  exchange : String
  symbol : String
  price : JsNum
  timestamp : ℕ
  chainId : Option ℕ := none
  deriving Repr, DecidableEq

/-- Adapter-level outcome record (the `ExchangeResult` interface with a
possibly-`NaN` price inside). -/
structure JsExchangeResult where
  exchange : String
  success : Bool
  data : Option JsPriceData := none
  error : Option String := none
  deriving Repr, DecidableEq

/-- Embeds `BinanceExchange.normalizeSymbol`. -/
def binanceNormalizeSymbol (symbol : String) : String :=
  symbol.toUpper ++ "USDT"

/-- Embeds `BinanceExchange.getPrice` as a function of the provider
response: the `try` body always builds a success result from
`parseFloat(response.data.price)` — with no missing-field guard — and
the `catch` arm returns a failure carrying `error.message ||
'Unknown error'`.  The function is total: no exception escapes. -/
def binanceGetPrice (symbol : String) (now : ℕ)
    (response : HttpResponse BinanceBody) : JsExchangeResult :=
  match response with
  | .error msg =>
      { exchange := "Binance", success := false, data := none,
        error := some (jsOrElse msg ("Unknown error")) }
  | .ok body =>
      { exchange := "Binance", success := true,
        data := some
          { exchange := "Binance", symbol := binanceNormalizeSymbol symbol,
            price := jsParseFloat body.price, timestamp := now },
        error := none }

/-- C7: the claim fails on the Binance adapter.  A non-2xx response is
indeed a failure carrying the error text and nothing escapes (first
conjunct), but a 2xx response missing the `price` field produces a
`success = true` outcome whose price is `NaN` — never the `Failure` the
claim requires. -/
theorem binance_missing_field_success_bug :
    (∀ (symbol msg : String) (now : ℕ),
        binanceGetPrice symbol now (HttpResponse.error msg)
          = { exchange := "Binance", success := false, data := none,
              error := some (jsOrElse msg ("Unknown error")) })
    ∧ (∀ (symbol : String) (now : ℕ),
        (binanceGetPrice symbol now (HttpResponse.ok { price := none })).success = true
        ∧ (binanceGetPrice symbol now
            (HttpResponse.ok { price := none })).data.map JsPriceData.price
          = some JsNum.nan)
    ∧ (binanceGetPrice ("BTC") 0 (HttpResponse.ok { price := none })).success = true := by
  exact ⟨fun _ _ _ => rfl, fun _ _ => ⟨rfl, rfl⟩, rfl⟩

/-- The 1inch quote response as the adapter probes it: three synonym
field pairs, each possibly absent. -/
structure OneInchQuote where
  toTokenAmount : Option String := none
  fromTokenAmount : Option String := none
  dstAmount : Option String := none
  srcAmount : Option String := none
  outTokenAmount : Option String := none
  inTokenAmount : Option String := none
  deriving Repr, DecidableEq

/-- JavaScript truthiness of an optional string field: absent and the
empty string are falsy, every other string (including "0") is truthy. -/
def truthy : Option String → Bool
  | some s => !(s == "")
  | none => false

/-- Embeds the `if (quote.toTokenAmount && quote.fromTokenAmount) ...
else if ... else if ... else` chain of `OneInchExchange.getPrice`:
the first synonym pair whose both fields are truthy wins. -/
def extractAmounts (q : OneInchQuote) : Option (String × String) :=
  if truthy q.toTokenAmount && truthy q.fromTokenAmount then
    some (q.toTokenAmount.getD "", q.fromTokenAmount.getD "")
  else if truthy q.dstAmount && truthy q.srcAmount then
    some (q.dstAmount.getD "", q.srcAmount.getD "")
  else if truthy q.outTokenAmount && truthy q.inTokenAmount then
    some (q.outTokenAmount.getD "", q.inTokenAmount.getD "")
  else
    none

/-- Value of a digit string (most significant first). -/
def digitsVal (l : List Char) : ℚ :=
  l.foldl (fun a c => 10 * a + ((c.toNat - 48 : ℕ) : ℚ)) 0

/-- Parses an unsigned decimal numeral `digits[.digits]` (either side of
the dot may be empty but not both), the shapes token amounts take. -/
def parseDec (l : List Char) : Option ℚ :=
  match l.span Char.isDigit with
  | (ds, []) => if ds.isEmpty then none else some (digitsVal ds)
  | (ds, c :: fs) =>
      if c = '.' && fs.all Char.isDigit && !(ds.isEmpty && fs.isEmpty) then
        some (digitsVal ds + digitsVal fs / 10 ^ fs.length)
      else none

/-- Models JavaScript `Number(s)` on the numeral shapes that amount
fields take: the empty string is 0, optionally-negated decimal numerals
parse to their value, anything else is `NaN`.  (Exponent notation,
leading `+` and surrounding whitespace are outside the modelled domain
and map to `NaN`.) -/
def jsNumber (s : String) : JsNum :=
  match s.data with
  | [] => JsNum.finite 0
  | c :: rest =>
      if c = '-' then
        match parseDec rest with
        | some q => JsNum.finite (-q)
        | none => JsNum.nan
      else
        match parseDec (c :: rest) with
        | some q => JsNum.finite q
        | none => JsNum.nan

/-- JavaScript division: finite/0 follows the IEEE signed-infinity rule
(`0/0` is `NaN`), any `NaN` operand gives `NaN`, an infinite numerator
over a finite denominator keeps a sign-adjusted infinity, a finite
numerator over an infinite denominator is 0 (the sign of zero is not
modelled), and infinity/infinity is `NaN`. -/
def jsDiv : JsNum → JsNum → JsNum
  | .finite a, .finite b =>
      if b = 0 then (if a = 0 then .nan else if 0 < a then .posInf else .negInf)
      else .finite (a / b)
  | .nan, _ => .nan
  | _, .nan => .nan
  | .posInf, .finite b => if 0 ≤ b then .posInf else .negInf
  | .negInf, .finite b => if 0 ≤ b then .negInf else .posInf
  | .finite _, .posInf => .finite 0
  | .finite _, .negInf => .finite 0
  | _, _ => .nan

/-- JavaScript `price <= 0`: false for `NaN` and `+Infinity`. -/
def jsLe0 : JsNum → Bool
  | .finite q => decide (q ≤ 0)
  | .nan => false
  | .posInf => false
  | .negInf => true

/-- Embeds the post-quote tail of `OneInchExchange.getPrice`: extract an
amount pair by the synonym cascade (failing with the invalid-format
error when none matches), compute `Number(to) / Number(from)`, reject a
non-positive price, else build the success result. -/
def oneInchGetPriceFromQuote (symbol : String) (chainId : ℕ)
    (q : OneInchQuote) : JsExchangeResult :=
  match extractAmounts q with
  | none =>
      { exchange := "1inch", success := false, data := none,
        error := some ("Invalid quote format received from 1inch") }
  | some (toAmt, fromAmt) =>
      let price := jsDiv (jsNumber toAmt) (jsNumber fromAmt)
      if jsLe0 price then
        { exchange := "1inch", success := false, data := none,
          error := some ("Invalid price calculated from quote") }
      else
        { exchange := "1inch", success := true,
          data := some
            { exchange := "1inch", symbol := symbol.toUpper, price := price,
              timestamp := 0, chainId := some chainId },
          error := none }

/-- A quote whose first synonym pair is fully present (both fields are
present and even truthy) yet whose output amount is zero. -/
def zeroAmountQuote : OneInchQuote :=
  { toTokenAmount := some "0", fromTokenAmount := some "1000000" }

/-- C8 counterexample: both fields of the first synonym pair are
present, so by the claim the call must not fail, yet the adapter
returns a Failure (the computed price 0/1000000 = 0 is rejected as
non-positive). -/
theorem oneinch_failure_despite_present_pair :
    zeroAmountQuote.toTokenAmount.isSome = true
    ∧ zeroAmountQuote.fromTokenAmount.isSome = true
    ∧ truthy zeroAmountQuote.toTokenAmount = true
    ∧ truthy zeroAmountQuote.fromTokenAmount = true
    ∧ (oneInchGetPriceFromQuote ("USDT") 1 zeroAmountQuote).success = false
    ∧ (oneInchGetPriceFromQuote ("USDT") 1 zeroAmountQuote).error
        = some ("Invalid price calculated from quote") := by
  refine ⟨rfl, rfl, by decide, by decide, ?_, ?_⟩ <;> with_unfolding_all rfl

/-- C8 (amended): the adapter tries the synonym pairs
toTokenAmount/fromTokenAmount, dstAmount/srcAmount,
outTokenAmount/inTokenAmount in that fixed order and extracts the first
pair whose both fields are present and non-empty (JS-truthy); it fails
when no pair qualifies, and also when the extracted amounts compute to
a non-positive price — otherwise it succeeds with price
`Number(to)/Number(from)`. -/
theorem oneinch_extraction_and_failure (q : OneInchQuote) (symbol : String)
    (chainId : ℕ) :
    ((truthy q.toTokenAmount && truthy q.fromTokenAmount) = true →
        extractAmounts q = some (q.toTokenAmount.getD "", q.fromTokenAmount.getD ""))
    ∧ ((truthy q.toTokenAmount && truthy q.fromTokenAmount) = false →
        (truthy q.dstAmount && truthy q.srcAmount) = true →
        extractAmounts q = some (q.dstAmount.getD "", q.srcAmount.getD ""))
    ∧ ((truthy q.toTokenAmount && truthy q.fromTokenAmount) = false →
        (truthy q.dstAmount && truthy q.srcAmount) = false →
        (truthy q.outTokenAmount && truthy q.inTokenAmount) = true →
        extractAmounts q = some (q.outTokenAmount.getD "", q.inTokenAmount.getD ""))
    ∧ ((truthy q.toTokenAmount && truthy q.fromTokenAmount) = false →
        (truthy q.dstAmount && truthy q.srcAmount) = false →
        (truthy q.outTokenAmount && truthy q.inTokenAmount) = false →
        extractAmounts q = none
        ∧ (oneInchGetPriceFromQuote symbol chainId q).success = false
        ∧ (oneInchGetPriceFromQuote symbol chainId q).error
            = some ("Invalid quote format received from 1inch"))
    ∧ (∀ t f, extractAmounts q = some (t, f) →
        ((oneInchGetPriceFromQuote symbol chainId q).success = false
            ↔ jsLe0 (jsDiv (jsNumber t) (jsNumber f)) = true)
        ∧ (jsLe0 (jsDiv (jsNumber t) (jsNumber f)) = false →
            (oneInchGetPriceFromQuote symbol chainId q).data.map JsPriceData.price
              = some (jsDiv (jsNumber t) (jsNumber f)))) := by
  refine ⟨?_, ?_, ?_, ?_, ?_⟩
  · intro h1
    simp [extractAmounts, h1]
  · intro h1 h2
    simp [extractAmounts, h1, h2]
  · intro h1 h2 h3
    simp [extractAmounts, h1, h2, h3]
  · intro h1 h2 h3
    have hext : extractAmounts q = none := by
      simp [extractAmounts, h1, h2, h3]
    refine ⟨hext, ?_, ?_⟩ <;> simp [oneInchGetPriceFromQuote, hext]
  · intro t f hext
    constructor
    · constructor
      · intro hfail
        by_contra hle
        simp only [Bool.not_eq_true] at hle
        simp [oneInchGetPriceFromQuote, hext, hle] at hfail
      · intro hle
        simp [oneInchGetPriceFromQuote, hext, hle]
    · intro hle
      simp [oneInchGetPriceFromQuote, hext, hle]

/-- A quote exposing only the second synonym pair. -/
def dstQuote : OneInchQuote :=
  { dstAmount := some "2000000", srcAmount := some "1000000" }

theorem oneinch_extraction_and_failure_witness :
    ((truthy dstQuote.toTokenAmount && truthy dstQuote.fromTokenAmount) = false
      ∧ (truthy dstQuote.dstAmount && truthy dstQuote.srcAmount) = true)
    ∧ extractAmounts dstQuote = some ("2000000", "1000000")
    ∧ (oneInchGetPriceFromQuote ("USDT") 1 dstQuote).data.map JsPriceData.price
        = some (JsNum.finite 2) := by
  refine ⟨⟨by decide, by decide⟩, ?_, ?_⟩
  · have h := (oneinch_extraction_and_failure dstQuote ("USDT") 1).2.1
      (by decide) (by decide)
    simpa using h
  · have h := ((oneinch_extraction_and_failure dstQuote ("USDT") 1).2.2.2.2
      ("2000000") ("1000000") (by with_unfolding_all rfl)).2
      (by with_unfolding_all rfl)
    rw [h]
    with_unfolding_all rfl

/-- The `symbols` argument as the tool dispatcher sees it: either not an
array at all, or a (possibly empty) array of strings. -/
inductive SymbolsArg where
  | notList
  | list (symbols : List String)
  deriving Repr, DecidableEq

/-- What a tool call produces: a request-level error (`isError: true`,
produced by the thrown validation error caught at the handler boundary)
or the per-symbol aggregate results. -/
inductive ToolCallOutcome where
  | requestError (msg : String)
  | results (rs : List CryptoPriceResult)
  deriving Repr, DecidableEq

/-- Embeds the `get_multiple_crypto_prices` arm of the tool-call handler
(`if (!Array.isArray(symbols) || symbols.length === 0) throw ...`,
caught by the surrounding `catch` into an error response), followed by
`getMultipleCryptoPrices`, which maps the aggregator over the symbols
in order (`Promise.all` preserves order).  The per-symbol aggregation is
abstracted as `priceOf`. -/
def handleGetMultipleCryptoPrices (arg : SymbolsArg)
    (priceOf : String → CryptoPriceResult) : ToolCallOutcome :=
  match arg with
  | .notList =>
      ToolCallOutcome.requestError ("Symbols array is required and cannot be empty")
  | .list symbols =>
      if symbols.isEmpty then
        ToolCallOutcome.requestError ("Symbols array is required and cannot be empty")
      else
        ToolCallOutcome.results (symbols.map priceOf)

/-- C9: a call whose `symbols` argument is not a list or is the empty
list fails with the request-level validation error and yields no
aggregate results; any non-empty list never raises that error and
returns one aggregate result per symbol, in order. -/
theorem get_multiple_input_validation (priceOf : String → CryptoPriceResult) :
    handleGetMultipleCryptoPrices SymbolsArg.notList priceOf
        = ToolCallOutcome.requestError ("Symbols array is required and cannot be empty")
    ∧ handleGetMultipleCryptoPrices (SymbolsArg.list []) priceOf
        = ToolCallOutcome.requestError ("Symbols array is required and cannot be empty")
    ∧ (∀ symbols : List String, symbols ≠ [] →
        handleGetMultipleCryptoPrices (SymbolsArg.list symbols) priceOf
          = ToolCallOutcome.results (symbols.map priceOf))
    ∧ (∀ symbols : List String, symbols ≠ [] → ∀ msg,
        handleGetMultipleCryptoPrices (SymbolsArg.list symbols) priceOf
          ≠ ToolCallOutcome.requestError msg) := by
  refine ⟨rfl, rfl, ?_, ?_⟩
  · intro symbols hne
    simp [handleGetMultipleCryptoPrices, hne]
  · intro symbols hne msg
    simp [handleGetMultipleCryptoPrices, hne]

/-- A fixed pricing function for the validation witness. -/
def constPriceOf : String → CryptoPriceResult := fun s =>
  getCryptoPriceFromResults s [sampleSuccess]

theorem get_multiple_input_validation_witness :
    (["BTC", "ETH"] : List String) ≠ []
    ∧ handleGetMultipleCryptoPrices (SymbolsArg.list ["BTC", "ETH"]) constPriceOf
        = ToolCallOutcome.results (["BTC", "ETH"].map constPriceOf)
    ∧ handleGetMultipleCryptoPrices (SymbolsArg.list ["BTC", "ETH"]) constPriceOf
        ≠ ToolCallOutcome.requestError ("Symbols array is required and cannot be empty") :=
  ⟨by decide,
   (get_multiple_input_validation constPriceOf).2.2.1 (["BTC", "ETH"]) (by decide),
   (get_multiple_input_validation constPriceOf).2.2.2 (["BTC", "ETH"])
     (by decide) ("Symbols array is required and cannot be empty")⟩

/-- One appended piece of the markdown response built by
`formatSinglePriceResult`, as an abstract line (payloads keep the data
the line renders). -/
inductive FormatLine where
  | headerLine (symbol : String)
  | summaryTotal (n : ℕ)
  | summarySuccessful (n : ℕ)
  | summaryRate
  | statsHeader
  | statsAverage (p : ℚ)
  | statsBest (p : Option ℚ)
  | statsWorst (p : Option ℚ)
  | statsSpread (s : ℚ)
  | exchangeHeader
  | cexHeader
  | cexLine (r : ExchangeResult)
  | dexHeader
  | dexLine (r : ExchangeResult)
  | warningNoResults (symbol : String)
  deriving Repr, DecidableEq

/-- JavaScript truthiness of the optional number `averagePrice` in
`if (averagePrice)`: `undefined` and `0` are falsy. -/
def jsTruthyOptQ : Option ℚ → Bool
  | some q => !(q == 0)
  | none => false

/-- JavaScript `(x || 0)` on an optional number: the value when truthy,
else 0 (coincides with `getD 0` since falsy numbers here are 0). -/
def jsOrZero (o : Option ℚ) : ℚ :=
  if jsTruthyOptQ o then o.getD 0 else 0

/-- The static CEX category list of `formatSinglePriceResult`. -/
def cexNames : List String := ["binance", "okx", "coinbase", "kraken"]

/-- The static DEX category list of `formatSinglePriceResult` (only the
three original DEX names appear in the formatter). -/
def dexNames : List String := ["hyperliquid", "uniswap", "0x"]

/-- Embeds `CryptoPriceMCPServer.formatSinglePriceResult` as the ordered
sequence of lines it appends: header and summary; the price-statistics
block guarded by `if (averagePrice)`; the per-category exchange
sections (grouped by the static name lists); and the warning line when
no exchange succeeded. -/
def formatSinglePriceResult (res : CryptoPriceResult) : List FormatLine :=
  [FormatLine.headerLine res.symbol,
   FormatLine.summaryTotal res.totalExchanges,
   FormatLine.summarySuccessful res.successfulExchanges,
   FormatLine.summaryRate]
  ++ (if jsTruthyOptQ res.averagePrice then
        [FormatLine.statsHeader,
         FormatLine.statsAverage (res.averagePrice.getD 0),
         FormatLine.statsBest res.bestPrice,
         FormatLine.statsWorst res.worstPrice,
         FormatLine.statsSpread (jsOrZero res.worstPrice - jsOrZero res.bestPrice)]
      else [])
  ++ [FormatLine.exchangeHeader]
  ++ (let cexResults := res.results.filter
        (fun r => cexNames.contains (lowerString r.exchange))
      if 0 < cexResults.length then
        FormatLine.cexHeader :: cexResults.map FormatLine.cexLine
      else [])
  ++ (let dexResults := res.results.filter
        (fun r => dexNames.contains (lowerString r.exchange))
      if 0 < dexResults.length then
        FormatLine.dexHeader :: dexResults.map FormatLine.dexLine
      else [])
  ++ (if res.successfulExchanges = 0 then
        [FormatLine.warningNoResults res.symbol]
      else [])

lemma stats_mem_iff (res : CryptoPriceResult) :
    FormatLine.statsHeader ∈ formatSinglePriceResult res
      ↔ ∃ p : ℚ, res.averagePrice = some p ∧ p ≠ 0 := by
  unfold formatSinglePriceResult
  cases havg : res.averagePrice with
  | none => simp [jsTruthyOptQ]
  | some p =>
    by_cases hp : p = 0
    · subst hp
      simp [jsTruthyOptQ]
    · have : jsTruthyOptQ (some p) = true := by simp [jsTruthyOptQ, hp]
      simp [this, hp]

/-- A successful outcome whose parsed price is 0 (representable: a
provider can return the string "0"). -/
def zeroPriceSuccess : ExchangeResult :=
  { exchange := "Binance"
    success := true
    data := some
      { exchange := "Binance"
        symbol := "XUSDT"
        price := 0
        timestamp := 0 } }

/-- C10: the rendered output contains the price-statistics block exactly
when `averagePrice` is defined and nonzero (first conjunct: the header;
second: the whole block, in order); in particular an aggregate result
with one success whose average price is 0 renders no statistics block
even though a success is present (last conjunct). -/
theorem format_stats_block_iff (res : CryptoPriceResult) :
    (FormatLine.statsHeader ∈ formatSinglePriceResult res
      ↔ ∃ p : ℚ, res.averagePrice = some p ∧ p ≠ 0)
    ∧ (∀ p : ℚ, res.averagePrice = some p → p ≠ 0 →
        [FormatLine.statsHeader, FormatLine.statsAverage p,
         FormatLine.statsBest res.bestPrice, FormatLine.statsWorst res.worstPrice,
         FormatLine.statsSpread (jsOrZero res.worstPrice - jsOrZero res.bestPrice)
        ].Sublist (formatSinglePriceResult res))
    ∧ (0 < (getCryptoPriceFromResults ("X") [zeroPriceSuccess]).successfulExchanges
        ∧ FormatLine.statsHeader
            ∉ formatSinglePriceResult (getCryptoPriceFromResults ("X") [zeroPriceSuccess])) := by
  refine ⟨stats_mem_iff res, ?_, ?_, ?_⟩
  · intro p hp hne
    have hcond : jsTruthyOptQ res.averagePrice = true := by
      rw [hp]
      simp [jsTruthyOptQ, hne]
    have hget : res.averagePrice.getD 0 = p := by rw [hp]; rfl
    unfold formatSinglePriceResult
    rw [hcond, if_pos rfl, hget]
    have h1 : List.Sublist
        [FormatLine.statsHeader, FormatLine.statsAverage p,
         FormatLine.statsBest res.bestPrice, FormatLine.statsWorst res.worstPrice,
         FormatLine.statsSpread (jsOrZero res.worstPrice - jsOrZero res.bestPrice)]
        ([FormatLine.headerLine res.symbol,
          FormatLine.summaryTotal res.totalExchanges,
          FormatLine.summarySuccessful res.successfulExchanges,
          FormatLine.summaryRate]
          ++ [FormatLine.statsHeader, FormatLine.statsAverage p,
              FormatLine.statsBest res.bestPrice, FormatLine.statsWorst res.worstPrice,
              FormatLine.statsSpread (jsOrZero res.worstPrice - jsOrZero res.bestPrice)]) :=
      List.sublist_append_right _ _
    exact ((h1.trans (List.sublist_append_left _ _)).trans
        (List.sublist_append_left _ _)).trans (List.sublist_append_left _ _)
  · decide
  · have havg : (getCryptoPriceFromResults ("X") [zeroPriceSuccess]).averagePrice
        = some 0 := by
      with_unfolding_all rfl
    rw [stats_mem_iff]
    rintro ⟨p, hp, hne⟩
    rw [havg] at hp
    exact hne (by injection hp with h; exact h.symm)

theorem format_stats_block_iff_witness :
    (getCryptoPriceFromResults ("BTC") [sampleSuccess]).averagePrice = some 5
    ∧ ((5 : ℚ) ≠ 0)
    ∧ List.Sublist
        [FormatLine.statsHeader, FormatLine.statsAverage 5,
         FormatLine.statsBest (getCryptoPriceFromResults ("BTC") [sampleSuccess]).bestPrice,
         FormatLine.statsWorst (getCryptoPriceFromResults ("BTC") [sampleSuccess]).worstPrice,
         FormatLine.statsSpread
           (jsOrZero (getCryptoPriceFromResults ("BTC") [sampleSuccess]).worstPrice
             - jsOrZero (getCryptoPriceFromResults ("BTC") [sampleSuccess]).bestPrice)]
        (formatSinglePriceResult (getCryptoPriceFromResults ("BTC") [sampleSuccess])) :=
  ⟨by with_unfolding_all rfl, by norm_num,
   (format_stats_block_iff (getCryptoPriceFromResults ("BTC") [sampleSuccess])).2.1 5
     (by with_unfolding_all rfl) (by norm_num)⟩

/-- JavaScript `Math.min` on two numbers: `NaN` absorbs, otherwise the
usual order with infinities. -/
def jsMin2 : JsNum → JsNum → JsNum
  | .nan, _ => .nan
  | _, .nan => .nan
  | .finite a, .finite b => .finite (min a b)
  | .negInf, _ => .negInf
  | _, .negInf => .negInf
  | .posInf, b => b
  | a, .posInf => a

/-- JavaScript `Math.max` on two numbers: `NaN` absorbs, otherwise the
usual order with infinities. -/
def jsMax2 : JsNum → JsNum → JsNum
  | .nan, _ => .nan
  | _, .nan => .nan
  | .finite a, .finite b => .finite (max a b)
  | .posInf, _ => .posInf
  | _, .posInf => .posInf
  | .negInf, b => b
  | a, .negInf => a

/-- JavaScript `+` on numbers: `NaN` absorbs, opposite infinities give
`NaN`, an infinity otherwise wins. -/
def jsAdd : JsNum → JsNum → JsNum
  | .nan, _ => .nan
  | _, .nan => .nan
  | .finite a, .finite b => .finite (a + b)
  | .posInf, .negInf => .nan
  | .negInf, .posInf => .nan
  | .posInf, _ => .posInf
  | _, .posInf => .posInf
  | .negInf, _ => .negInf
  | _, .negInf => .negInf

/-- JavaScript `<=` on numbers: any comparison with `NaN` is false. -/
def jsLe : JsNum → JsNum → Bool
  | .nan, _ => false
  | _, .nan => false
  | .finite a, .finite b => decide (a ≤ b)
  | .negInf, _ => true
  | _, .negInf => false
  | _, .posInf => true
  | .posInf, _ => false

/-- The aggregate result over `NaN`-aware prices (the `CryptoPriceResult`
interface whose optional statistics can be `NaN`). -/
structure JsCryptoPriceResult where
  symbol : String
  results : List JsExchangeResult
  averagePrice : Option JsNum := none
  bestPrice : Option JsNum := none
  worstPrice : Option JsNum := none
  totalExchanges : ℕ
  successfulExchanges : ℕ
  deriving Repr, DecidableEq

/-- Embeds `results.filter(r => r.success && r.data)` over the
`NaN`-aware outcome records. -/
def successfulResultsJs (results : List JsExchangeResult) : List JsExchangeResult :=
  results.filter (fun r => r.success && r.data.isSome)

/-- Embeds `successfulResults.map(r => r.data!.price)` over the
`NaN`-aware outcome records. -/
def pricesOfJs (results : List JsExchangeResult) : List JsNum :=
  (successfulResultsJs results).filterMap (fun r => r.data.map JsPriceData.price)

/-- Embeds the statistics / result-assembly tail of
`CryptoPriceChecker.getCryptoPrice` over `NaN`-aware prices:
`averagePrice` is `reduce((sum, price) => sum + price, 0) / length`
when non-empty, `bestPrice` is the spread-out `Math.min`, `worstPrice`
the spread-out `Math.max` (left folds, so one `NaN` price poisons all
three statistics exactly as in JavaScript). -/
def getCryptoPriceFromResultsJs (symbol : String) (results : List JsExchangeResult) :
    JsCryptoPriceResult :=
  let prices := pricesOfJs results
  { symbol := symbol.toUpper
    results := results
    averagePrice :=
      if 0 < prices.length then
        some (jsDiv (prices.foldl jsAdd (JsNum.finite 0))
          (JsNum.finite (prices.length : ℚ)))
      else none
    bestPrice :=
      match prices with
      | [] => none
      | x :: xs => some (xs.foldl jsMin2 x)
    worstPrice :=
      match prices with
      | [] => none
      | x :: xs => some (xs.foldl jsMax2 x)
    totalExchanges := results.length
    successfulExchanges := (successfulResultsJs results).length }

/-- Projects the finite value out of a `JsNum`. -/
def toFiniteQ : JsNum → Option ℚ
  | .finite q => some q
  | _ => none

/-- The rational values of the successful prices (all of them, when
every successful price is finite). -/
def finitePrices (results : List JsExchangeResult) : List ℚ :=
  (pricesOfJs results).filterMap toFiniteQ

lemma mem_successfulResultsJs_data_isSome {results : List JsExchangeResult}
    {r : JsExchangeResult} (hr : r ∈ successfulResultsJs results) : r.data.isSome := by
  have h := List.of_mem_filter hr
  exact (Bool.and_eq_true ..).mp h |>.2

lemma jsFilterMap_price_length {l : List JsExchangeResult}
    (h : ∀ r ∈ l, r.data.isSome) :
    (l.filterMap (fun r => r.data.map JsPriceData.price)).length = l.length := by
  induction l with
  | nil => rfl
  | cons x xs ih =>
    have hx := h x (List.mem_cons_self _ _)
    cases hd : x.data with
    | none => simp [hd] at hx
    | some d =>
      simp [List.filterMap_cons, hd, ih (fun r hr => h r (List.mem_cons_of_mem _ hr))]

lemma pricesOfJs_length (results : List JsExchangeResult) :
    (pricesOfJs results).length = (successfulResultsJs results).length :=
  jsFilterMap_price_length (fun _ hr => mem_successfulResultsJs_data_isSome hr)

lemma all_finite_eq_map {l : List JsNum}
    (h : (l.all fun p => (toFiniteQ p).isSome) = true) :
    l = (l.filterMap toFiniteQ).map JsNum.finite := by
  induction l with
  | nil => rfl
  | cons x xs ih =>
    simp only [List.all_cons, Bool.and_eq_true] at h
    obtain ⟨hx, hxs⟩ := h
    cases x with
    | finite q =>
      have htail := ih hxs
      simp only [List.filterMap_cons, toFiniteQ, List.map_cons]
      rw [← htail]
    | nan => simp [toFiniteQ] at hx
    | posInf => simp [toFiniteQ] at hx
    | negInf => simp [toFiniteQ] at hx

lemma foldl_jsMin2_map (qs : List ℚ) (q : ℚ) :
    (qs.map JsNum.finite).foldl jsMin2 (JsNum.finite q)
      = JsNum.finite (qs.foldl min q) := by
  induction qs generalizing q with
  | nil => rfl
  | cons x xs ih => simp [jsMin2, ih]

lemma foldl_jsMax2_map (qs : List ℚ) (q : ℚ) :
    (qs.map JsNum.finite).foldl jsMax2 (JsNum.finite q)
      = JsNum.finite (qs.foldl max q) := by
  induction qs generalizing q with
  | nil => rfl
  | cons x xs ih => simp [jsMax2, ih]

lemma foldl_jsAdd_map (qs : List ℚ) (q : ℚ) :
    (qs.map JsNum.finite).foldl jsAdd (JsNum.finite q)
      = JsNum.finite (qs.foldl (fun a b => a + b) q) := by
  induction qs generalizing q with
  | nil => rfl
  | cons x xs ih => simp [jsAdd, ih]

lemma foldl_add_sum (qs : List ℚ) (q : ℚ) :
    qs.foldl (fun a b => a + b) q = q + qs.sum := by
  induction qs generalizing q with
  | nil => simp
  | cons x xs ih => simp [ih, List.sum_cons, add_assoc]

/-- C2 (amended): over the `NaN`-aware statistics tail — when every
successful price is finite and at least one exchange succeeded, the
three statistics are defined finite values with `bestPrice` the
minimum, `worstPrice` the maximum and `averagePrice` the arithmetic
mean of the successful prices, and `bestPrice ≤ averagePrice ≤
worstPrice`; when no exchange succeeded all three are undefined. -/
theorem aggregate_stats_finite (symbol : String) (results : List JsExchangeResult) :
    (((pricesOfJs results).all fun p => (toFiniteQ p).isSome) = true →
      0 < (getCryptoPriceFromResultsJs symbol results).successfulExchanges →
      ∃ a b w : ℚ,
        (getCryptoPriceFromResultsJs symbol results).averagePrice
            = some (JsNum.finite a)
        ∧ (getCryptoPriceFromResultsJs symbol results).bestPrice
            = some (JsNum.finite b)
        ∧ (getCryptoPriceFromResultsJs symbol results).worstPrice
            = some (JsNum.finite w)
        ∧ a = (finitePrices results).sum / ((finitePrices results).length : ℚ)
        ∧ b ∈ finitePrices results ∧ (∀ p ∈ finitePrices results, b ≤ p)
        ∧ w ∈ finitePrices results ∧ (∀ p ∈ finitePrices results, p ≤ w)
        ∧ b ≤ a ∧ a ≤ w)
    ∧ ((getCryptoPriceFromResultsJs symbol results).successfulExchanges = 0 →
        (getCryptoPriceFromResultsJs symbol results).averagePrice = none
        ∧ (getCryptoPriceFromResultsJs symbol results).bestPrice = none
        ∧ (getCryptoPriceFromResultsJs symbol results).worstPrice = none) := by
  constructor
  · intro hfin hpos
    have hlen : 0 < (pricesOfJs results).length := by
      rw [pricesOfJs_length]
      simpa [getCryptoPriceFromResultsJs] using hpos
    have hmap : pricesOfJs results = (finitePrices results).map JsNum.finite :=
      all_finite_eq_map hfin
    obtain ⟨q0, qs, hfp⟩ : ∃ q0 qs, finitePrices results = q0 :: qs := by
      cases hc : finitePrices results with
      | nil =>
        exfalso
        rw [hmap, hc] at hlen
        simp at hlen
      | cons q0 qs => exact ⟨q0, qs, rfl⟩
    have hprices : pricesOfJs results = JsNum.finite q0 :: qs.map JsNum.finite := by
      rw [hmap, hfp, List.map_cons]
    have hLlen : ((finitePrices results).length : ℚ) ≠ 0 := by
      rw [hfp]
      simp only [List.length_cons]
      positivity
    set L := finitePrices results with hL
    have hmin : L.min? = some (qs.foldl min q0) := by rw [hfp]; rfl
    have hmax : L.max? = some (qs.foldl max q0) := by rw [hfp]; rfl
    obtain ⟨hbmem, hble⟩ := rat_min?_spec hmin
    obtain ⟨hwmem, hwle⟩ := rat_max?_spec hmax
    have havg : (getCryptoPriceFromResultsJs symbol results).averagePrice
        = some (JsNum.finite (L.sum / (L.length : ℚ))) := by
      show (if 0 < (pricesOfJs results).length then
          some (jsDiv ((pricesOfJs results).foldl jsAdd (JsNum.finite 0))
            (JsNum.finite ((pricesOfJs results).length : ℚ)))
        else none) = _
      rw [if_pos hlen, hmap, foldl_jsAdd_map, foldl_add_sum]
      have hlencast : (((L.map JsNum.finite).length : ℕ) : ℚ) = (L.length : ℚ) := by
        simp
      rw [hlencast]
      simp only [jsDiv, if_neg hLlen, zero_add]
    have hbest : (getCryptoPriceFromResultsJs symbol results).bestPrice
        = some (JsNum.finite (qs.foldl min q0)) := by
      show (match pricesOfJs results with
        | [] => none
        | x :: xs => some (xs.foldl jsMin2 x)) = _
      rw [hprices]
      simp only [foldl_jsMin2_map]
    have hworst : (getCryptoPriceFromResultsJs symbol results).worstPrice
        = some (JsNum.finite (qs.foldl max q0)) := by
      show (match pricesOfJs results with
        | [] => none
        | x :: xs => some (xs.foldl jsMax2 x)) = _
      rw [hprices]
      simp only [foldl_jsMax2_map]
    have hLpos : (0 : ℚ) < (L.length : ℚ) := by
      rw [hfp]
      simp only [List.length_cons]
      positivity
    refine ⟨L.sum / (L.length : ℚ), qs.foldl min q0, qs.foldl max q0,
      havg, hbest, hworst, rfl, hbmem, hble, hwmem, hwle, ?_, ?_⟩
    · rw [le_div_iff₀ hLpos]
      have := length_mul_le_sum hble
      linarith
    · rw [div_le_iff₀ hLpos]
      have := sum_le_length_mul hwle
      linarith
  · intro hzero
    have hlen : (pricesOfJs results).length = 0 := by
      rw [pricesOfJs_length]
      simpa [getCryptoPriceFromResultsJs] using hzero
    have hnil : pricesOfJs results = [] := List.length_eq_zero.mp hlen
    refine ⟨?_, ?_, ?_⟩ <;> simp [getCryptoPriceFromResultsJs, hnil]

/-- The Binance adapter's own output on a 2xx body missing the price
field: a Success carrying a `NaN` price (the reachable state behind the
counterexample). -/
def nanBinanceOutcome : JsExchangeResult :=
  binanceGetPrice ("X") 0 (HttpResponse.ok { price := none })

/-- A sibling successful outcome with the finite price 100. -/
def krakenFiniteOutcome : JsExchangeResult :=
  { exchange := "Kraken"
    success := true
    data := some
      { exchange := "Kraken"
        symbol := "XUSDT"
        price := JsNum.finite 100
        timestamp := 0 } }

/-- C2 counterexample: feeding the statistics tail the Binance adapter's
own Success-with-`NaN` outcome next to a Success at price 100 gives
`successfulExchanges = 2` with all three statistics `NaN`: `bestPrice`
is not the minimum of the successful prices (it does not compare below
the successful price 100) and `bestPrice ≤ averagePrice` is false under
the JavaScript comparison. -/
theorem aggregate_stats_nan_counterexample :
    nanBinanceOutcome.success = true
    ∧ nanBinanceOutcome.data.map JsPriceData.price = some JsNum.nan
    ∧ (getCryptoPriceFromResultsJs ("X")
        [nanBinanceOutcome, krakenFiniteOutcome]).successfulExchanges = 2
    ∧ (getCryptoPriceFromResultsJs ("X")
        [nanBinanceOutcome, krakenFiniteOutcome]).bestPrice = some JsNum.nan
    ∧ (getCryptoPriceFromResultsJs ("X")
        [nanBinanceOutcome, krakenFiniteOutcome]).worstPrice = some JsNum.nan
    ∧ (getCryptoPriceFromResultsJs ("X")
        [nanBinanceOutcome, krakenFiniteOutcome]).averagePrice = some JsNum.nan
    ∧ JsNum.finite 100 ∈ pricesOfJs [nanBinanceOutcome, krakenFiniteOutcome]
    ∧ (getCryptoPriceFromResultsJs ("X")
        [nanBinanceOutcome, krakenFiniteOutcome]).bestPrice
        ≠ some (JsNum.finite 100)
    ∧ jsLe JsNum.nan (JsNum.finite 100) = false
    ∧ jsLe JsNum.nan JsNum.nan = false := by
  refine ⟨rfl, rfl, ?_, ?_, ?_, ?_, ?_, ?_, rfl, rfl⟩
  · with_unfolding_all rfl
  · with_unfolding_all rfl
  · with_unfolding_all rfl
  · with_unfolding_all rfl
  · with_unfolding_all decide
  · with_unfolding_all decide

/-- A `NaN`-aware success at price 5, for the witness. -/
def jsSampleSuccess : JsExchangeResult :=
  { exchange := "Kraken"
    success := true
    data := some
      { exchange := "Kraken"
        symbol := "BTCUSDT"
        price := JsNum.finite 5
        timestamp := 0 } }

/-- A `NaN`-aware failed outcome, for the witness. -/
def jsSampleFailure : JsExchangeResult :=
  { exchange := "Kraken"
    success := false
    error := some "No data found for symbol" }

theorem aggregate_stats_finite_witness :
    (((pricesOfJs [jsSampleSuccess]).all fun p => (toFiniteQ p).isSome) = true
      ∧ 0 < (getCryptoPriceFromResultsJs ("BTC") [jsSampleSuccess]).successfulExchanges
      ∧ ∃ a b w : ℚ,
          (getCryptoPriceFromResultsJs ("BTC") [jsSampleSuccess]).averagePrice
              = some (JsNum.finite a)
          ∧ (getCryptoPriceFromResultsJs ("BTC") [jsSampleSuccess]).bestPrice
              = some (JsNum.finite b)
          ∧ (getCryptoPriceFromResultsJs ("BTC") [jsSampleSuccess]).worstPrice
              = some (JsNum.finite w)
          ∧ a = (finitePrices [jsSampleSuccess]).sum
              / ((finitePrices [jsSampleSuccess]).length : ℚ)
          ∧ b ∈ finitePrices [jsSampleSuccess]
          ∧ (∀ p ∈ finitePrices [jsSampleSuccess], b ≤ p)
          ∧ w ∈ finitePrices [jsSampleSuccess]
          ∧ (∀ p ∈ finitePrices [jsSampleSuccess], p ≤ w)
          ∧ b ≤ a ∧ a ≤ w)
    ∧ ((getCryptoPriceFromResultsJs ("BTC") [jsSampleFailure]).successfulExchanges = 0
      ∧ (getCryptoPriceFromResultsJs ("BTC") [jsSampleFailure]).averagePrice = none
      ∧ (getCryptoPriceFromResultsJs ("BTC") [jsSampleFailure]).bestPrice = none
      ∧ (getCryptoPriceFromResultsJs ("BTC") [jsSampleFailure]).worstPrice = none) :=
  ⟨⟨by decide, by decide,
    (aggregate_stats_finite ("BTC") [jsSampleSuccess]).1 (by decide) (by decide)⟩,
   ⟨by decide,
    (aggregate_stats_finite ("BTC") [jsSampleFailure]).2 (by decide)⟩⟩

end CryptoSpec
